import Mathlib

/-!
Shallow embedding of the RomM client (src/RomM/api.py, status.py, models.py):
the fetch-and-transfer pipeline, its shared status hub, the token lifecycle
and the filename sanitizer, together with theorems settling the frozen
claims about the natural-language specification.

Strings manipulated by the Python code are embedded as `List Char`; machine
state mutated through `self.status` is passed explicitly; network I/O is an
explicit outcome parameter; fatal (re-raised) exceptions are a `raised` flag
on the result.
-/

namespace RomM

/-! ## Path model: `os.path.normpath`, `str.split(os.sep)`, `os.path.join`
    and `API._sanitize_filename` (api.py lines 70-78), over `List Char`. -/

/-- `str.split('/')` of CPython: splits on every separator, keeping empty
pieces, always returning at least one piece. -/
def splitSep : List Char → List (List Char)
  | [] => [[]]
  | c :: cs =>
    match splitSep cs with
    | [] => [[]]
    | p :: ps => if c = '/' then [] :: p :: ps else (c :: p) :: ps

/-- `'/'.join(parts)` of CPython. -/
def joinSlash : List (List Char) → List Char
  | [] => []
  | [p] => p
  | p :: ps => p ++ '/' :: joinSlash ps

/-- The number of initial slashes `posixpath.normpath` preserves:
two slashes are kept as two, any other positive count collapses to one. -/
def initialSlashes (s : List Char) : Nat :=
  if s.take 1 = ['/'] then
    if s.take 2 = ['/', '/'] && !(s.take 3 = ['/', '/', '/']) then 2 else 1
  else 0

/-- The component loop of `posixpath.normpath`, with the accumulator kept in
reverse order (`acc.head?` is Python's `new_comps[-1]`, cons is append,
tail is pop). -/
def normCompsRev (slashes : Nat) : List (List Char) → List (List Char) → List (List Char)
  | [], acc => acc
  | comp :: rest, acc =>
    if comp = [] || comp = ['.'] then
      normCompsRev slashes rest acc
    else if comp ≠ ['.', '.'] || (slashes = 0 && acc = []) ||
        (!acc.isEmpty && acc.head? = some ['.', '.']) then
      normCompsRev slashes rest (comp :: acc)
    else if !acc.isEmpty then
      normCompsRev slashes rest acc.tail
    else
      normCompsRev slashes rest acc

/-- `posixpath.normpath` of CPython. -/
def normpath (s : List Char) : List Char :=
  if s = [] then ['.']
  else
    let sl := initialSlashes s
    let comps := (normCompsRev sl (splitSep s) []).reverse
    let p := List.replicate sl '/' ++ joinSlash comps
    if p = [] then ['.'] else p

/-- The characters of the regex class in `API._sanitize_filename`
(`re.sub(r'[\\/*?:"<>|\t\n\r\b]', "_", part)`; `\b` in a class is
backspace). -/
def HOSTILE : List Char :=
  ['\\', '/', '*', '?', ':', '"', '<', '>', '|', '\t', '\n', '\r', Char.ofNat 8]

/-- The per-segment `re.sub` of `API._sanitize_filename`. -/
def sanitizePart (p : List Char) : List Char :=
  p.map (fun c => if c ∈ HOSTILE then '_' else c)

/-- `os.path.join(a, b)` of CPython posixpath. -/
def osJoin2 (a b : List Char) : List Char :=
  if b.take 1 = ['/'] then b
  else if a = [] || a.getLast? = some '/' then a ++ b
  else a ++ '/' :: b

/-- `API._sanitize_filename` (api.py lines 70-78): normalize the path, split
on the separator, apply the regex substitution to each part, and join the
parts back with `os.path.join`. -/
def sanitize_filename (f : List Char) : List Char :=
  match (splitSep (normpath f)).map sanitizePart with
  | [] => []
  | p :: ps => ps.foldl osJoin2 p

/-! ### Facts about the path model -/

theorem splitSep_ne_nil (xs : List Char) : splitSep xs ≠ [] := by
  induction xs with
  | nil => simp [splitSep]
  | cons c cs ih =>
    simp only [splitSep]
    cases h : splitSep cs with
    | nil => simp
    | cons p ps => by_cases hc : c = '/' <;> simp [hc]

theorem splitSep_sep_free (xs : List Char) :
    ∀ p ∈ splitSep xs, '/' ∉ p := by
  induction xs with
  | nil => intro p hp; simp [splitSep] at hp; simp [hp]
  | cons c cs ih =>
    intro p hp
    simp only [splitSep] at hp
    cases h : splitSep cs with
    | nil => exact absurd h (splitSep_ne_nil cs)
    | cons q qs =>
      rw [h] at hp
      have hq : '/' ∉ q := ih q (by rw [h]; exact List.mem_cons_self q qs)
      by_cases hc : c = '/'
      · simp [hc] at hp
        rcases hp with hp | hp | hp
        · simp [hp]
        · exact hp ▸ hq
        · exact ih p (by rw [h]; exact List.mem_cons_of_mem q hp)
      · simp [hc] at hp
        rcases hp with hp | hp
        · subst hp
          intro hmem
          rcases List.mem_cons.mp hmem with h1 | h1
          · exact hc h1.symm
          · exact hq h1
        · exact ih p (by rw [h]; exact List.mem_cons_of_mem q hp)

theorem splitSep_append_sep_free (p rest : List Char) (hp : '/' ∉ p) :
    splitSep (p ++ rest) =
      (p ++ (splitSep rest).headD []) :: (splitSep rest).tail := by
  induction p with
  | nil =>
    simp
    cases h : splitSep rest with
    | nil => exact absurd h (splitSep_ne_nil rest)
    | cons q qs => simp
  | cons c cs ih =>
    have hc : c ≠ '/' := fun h => hp (h ▸ List.mem_cons_self c cs)
    have hcs : '/' ∉ cs := fun h => hp (List.mem_cons_of_mem c h)
    rw [List.cons_append]
    simp only [splitSep]
    rw [ih hcs]
    simp [hc]

theorem splitSep_joinSlash (parts : List (List Char))
    (hne : parts ≠ []) (hsf : ∀ p ∈ parts, '/' ∉ p) :
    splitSep (joinSlash parts) = parts := by
  induction parts with
  | nil => exact absurd rfl hne
  | cons p ps ih =>
    cases ps with
    | nil =>
      have := splitSep_append_sep_free p [] (hsf p (List.mem_cons_self p []))
      simpa [joinSlash, splitSep] using this
    | cons q qs =>
      have hp : '/' ∉ p := hsf p (List.mem_cons_self p _)
      have hrest : splitSep (joinSlash (q :: qs)) = q :: qs :=
        ih (by simp) (fun r hr => hsf r (List.mem_cons_of_mem p hr))
      have : splitSep (p ++ '/' :: joinSlash (q :: qs)) =
          (p ++ (splitSep ('/' :: joinSlash (q :: qs))).headD []) ::
            (splitSep ('/' :: joinSlash (q :: qs))).tail :=
        splitSep_append_sep_free _ _ hp
      simp only [joinSlash]
      rw [this]
      simp only [splitSep, hrest]
      cases hq : splitSep (joinSlash (q :: qs)) with
      | nil => exact absurd hq (splitSep_ne_nil _)
      | cons r rs =>
        rw [hq] at hrest
        simp [hrest]

theorem getLast?_ne_slash {p : List Char} (hsf : '/' ∉ p) :
    p.getLast? ≠ some '/' := by
  intro h
  obtain ⟨hne, heq⟩ := List.mem_getLast?_eq_getLast (x := '/') h
  exact hsf (by rw [heq]; exact List.getLast_mem hne)

theorem osJoin2_eq {a b : List Char} (ha : a ≠ []) (hla : a.getLast? ≠ some '/')
    (hb : b ≠ []) (hsb : '/' ∉ b) : osJoin2 a b = a ++ '/' :: b := by
  unfold osJoin2
  have h1 : b.take 1 ≠ ['/'] := by
    cases b with
    | nil => simp
    | cons c cs =>
      simp only [List.take, ne_eq, List.cons.injEq]
      intro h
      exact hsb (h.1 ▸ List.mem_cons_self c cs)
  rw [if_neg h1, if_neg]
  simp [ha, hla]

theorem foldl_osJoin2 (ps : List (List Char)) :
    ∀ a, a ≠ [] → a.getLast? ≠ some '/' →
    (∀ p ∈ ps, p ≠ [] ∧ '/' ∉ p) →
    ps.foldl osJoin2 a = joinSlash (a :: ps) := by
  induction ps with
  | nil => intro a _ _ _; simp [joinSlash]
  | cons p ps ih =>
    intro a ha hla hps
    obtain ⟨hp, hsp⟩ := hps p (List.mem_cons_self p ps)
    have hj : osJoin2 a p = a ++ '/' :: p := osJoin2_eq ha hla hp hsp
    have hne : a ++ '/' :: p ≠ [] := by simp
    have hlast : (a ++ '/' :: p).getLast? ≠ some '/' := by
      rw [List.getLast?_append_of_ne_nil a (by simp)]
      cases p with
      | nil => exact absurd rfl hp
      | cons d ds =>
        have hds : ('/' :: d :: ds).getLast? = (d :: ds).getLast? := by
          simp [List.getLast?_cons_cons]
        rw [hds]
        exact getLast?_ne_slash hsp
    rw [List.foldl_cons, hj, ih _ hne hlast (fun q hq => hps q (List.mem_cons_of_mem p hq))]
    cases ps with
    | nil => simp [joinSlash]
    | cons q qs => simp [joinSlash]

/-- Every component produced by the `normpath` component loop is a nonempty,
separator-free piece drawn from the input components. -/
theorem normCompsRev_wf (sl : Nat) (comps : List (List Char))
    (hsf : ∀ p ∈ comps, '/' ∉ p) :
    ∀ acc, (∀ p ∈ acc, p ≠ [] ∧ '/' ∉ p) →
    ∀ p ∈ normCompsRev sl comps acc, p ≠ [] ∧ '/' ∉ p := by
  induction comps with
  | nil => intro acc hacc p hp; exact hacc p hp
  | cons comp rest ih =>
    intro acc hacc p hp
    have hrest : ∀ q ∈ rest, '/' ∉ q := fun q hq => hsf q (List.mem_cons_of_mem comp hq)
    simp only [normCompsRev] at hp
    split at hp
    next h0 => exact ih hrest acc hacc p hp
    next h0 =>
      split at hp
      next h1 =>
        refine ih hrest (comp :: acc) ?_ p hp
        have hcomp : comp ≠ [] ∧ '/' ∉ comp := by
          refine ⟨?_, hsf comp (List.mem_cons_self comp rest)⟩
          intro h3
          rw [h3] at h0
          simp at h0
        intro q hq
        rcases List.mem_cons.mp hq with h2 | h2
        · rw [h2]; exact hcomp
        · exact hacc q h2
      next h1 =>
        split at hp
        next h2 =>
          exact ih hrest acc.tail (fun q hq => hacc q (List.mem_of_mem_tail hq)) p hp
        next h2 => exact ih hrest acc hacc p hp

/-- When `normpath` yields a relative result, every `/`-separated segment of
that result is nonempty and separator-free. -/
theorem normpath_parts_wf (f : List Char) (h : (normpath f).take 1 ≠ ['/']) :
    ∀ p ∈ splitSep (normpath f), p ≠ [] ∧ '/' ∉ p := by
  by_cases hf : f = []
  · subst hf
    intro p hp
    simp [normpath, splitSep] at hp
    simp [hp]
  · have hwf' : ∀ p ∈ (normCompsRev (initialSlashes f) (splitSep f) []).reverse,
        p ≠ [] ∧ '/' ∉ p := fun p hp =>
      normCompsRev_wf _ _ (splitSep_sep_free f) [] (by simp) p (List.mem_reverse.mp hp)
    by_cases hsl : initialSlashes f = 0
    · rw [hsl] at hwf'
      have hn : normpath f =
          if joinSlash ((normCompsRev 0 (splitSep f) []).reverse) = [] then ['.']
          else joinSlash ((normCompsRev 0 (splitSep f) []).reverse) := by
        simp only [normpath, if_neg hf, hsl]
        simp
      set cs := (normCompsRev 0 (splitSep f) []).reverse with hcs
      by_cases hj : joinSlash cs = []
      · rw [hn, if_pos hj]
        intro p hp
        simp [splitSep] at hp
        simp [hp]
      · rw [hn, if_neg hj]
        have hcne : cs ≠ [] := by
          intro hc
          rw [hc] at hj
          simp [joinSlash] at hj
        rw [splitSep_joinSlash cs hcne (fun p hp => (hwf' p hp).2)]
        exact hwf'
    · -- a positive slash count makes the result start with '/', contradicting h
      exfalso
      apply h
      have hn : normpath f =
          if List.replicate (initialSlashes f) '/' ++
              joinSlash ((normCompsRev (initialSlashes f) (splitSep f) []).reverse) = []
          then ['.']
          else List.replicate (initialSlashes f) '/' ++
              joinSlash ((normCompsRev (initialSlashes f) (splitSep f) []).reverse) := by
        simp only [normpath, if_neg hf]
      cases hs : initialSlashes f with
      | zero => exact absurd hs hsl
      | succ n =>
        rw [hs] at hn
        have hne : List.replicate (n + 1) '/' ++
            joinSlash ((normCompsRev (n + 1) (splitSep f) []).reverse) ≠ [] := by
          simp [List.replicate_succ]
        rw [hn, if_neg hne]
        simp [List.replicate_succ]

theorem sanitizePart_sep_free (p : List Char) : '/' ∉ sanitizePart p := by
  intro h
  simp only [sanitizePart, List.mem_map] at h
  obtain ⟨c, _, hc⟩ := h
  by_cases hmem : c ∈ HOSTILE
  · rw [if_pos hmem] at hc; exact absurd hc (by decide)
  · rw [if_neg hmem] at hc
    exact hmem (hc ▸ (by decide : '/' ∈ HOSTILE))

theorem sanitizePart_ne_nil {p : List Char} (hp : p ≠ []) : sanitizePart p ≠ [] := by
  simpa [sanitizePart] using hp

/-- Structure of the sanitizer output: its segments are exactly the
per-segment substitutions of the normalized input's segments. -/
theorem sanitize_filename_parts (f : List Char)
    (h : (normpath f).take 1 ≠ ['/']) :
    splitSep (sanitize_filename f) =
      (splitSep (normpath f)).map sanitizePart := by
  have hwf := normpath_parts_wf f h
  unfold sanitize_filename
  cases hps : (splitSep (normpath f)).map sanitizePart with
  | nil =>
    exfalso
    have hne := splitSep_ne_nil (normpath f)
    simp only [List.map_eq_nil_iff] at hps
    exact hne hps
  | cons p ps =>
    have hall : ∀ q ∈ p :: ps, q ≠ [] ∧ '/' ∉ q := by
      intro q hq
      rw [← hps] at hq
      obtain ⟨r, hr, hrq⟩ := List.mem_map.mp hq
      exact ⟨hrq ▸ sanitizePart_ne_nil (hwf r hr).1, hrq ▸ sanitizePart_sep_free r⟩
    have hp0 := hall p (List.mem_cons_self p ps)
    show splitSep (List.foldl osJoin2 p ps) = p :: ps
    rw [foldl_osJoin2 ps p hp0.1 (getLast?_ne_slash hp0.2)
        (fun q hq => hall q (List.mem_cons_of_mem p hq))]
    rw [splitSep_joinSlash (p :: ps) (by simp) (fun q hq => (hall q hq).2)]

/-- String wrapper around the sanitizer (the source passes Python `str`). -/
def sanitizeS (s : String) : String := String.mk (sanitize_filename s.toList)

/-- `os.path.join(a, b)` on strings. -/
def osJoinS (a b : String) : String := String.mk (osJoin2 a.toList b.toList)

def rstripSlash (h : List Char) : List Char :=
  (h.reverse.dropWhile (fun c => c = '/')).reverse

/-- `posixpath.dirname`: everything up to the last separator, with trailing
separators stripped unless the head is all separators. -/
def dirnameL (p : List Char) : List Char :=
  let revHead := p.reverse.dropWhile (fun c => c ≠ '/')
  match revHead with
  | [] => []
  | _ =>
    let head := revHead.reverse
    if head.all (fun c => c = '/') then head else rstripSlash head

def dirnameS (s : String) : String := String.mk (dirnameL s.toList)

/-! ## JSON values as delivered by `json.loads` (no floats are needed by
the claims; numbers are integers). -/

inductive Json where
  | null
  | bool (b : Bool)
  | num (n : Int)
  | str (s : String)
  | arr (xs : List Json)
  | obj (fields : List (String × Json))

/-- `d[k]` on a dict: `none` models the `KeyError` / `TypeError` raise. -/
def Json.get? (j : Json) (k : String) : Option Json :=
  match j with
  | .obj fs => (fs.find? (fun f => f.1 == k)).map (fun f => f.2)
  | _ => none

/-- `d.get(k, default)` on a dict; `none` models `AttributeError` on a
non-dict. -/
def Json.getD? (j : Json) (k : String) (d : Json) : Option Json :=
  match j with
  | .obj fs => some ((((fs.find? (fun f => f.1 == k)).map (fun f => f.2))).getD d)
  | _ => none

def Json.asInt? : Json → Option Int
  | .num n => some n
  | _ => none

def Json.asNat? : Json → Option Nat
  | .num n => if n < 0 then none else some n.toNat
  | _ => none

def Json.asStr? : Json → Option String
  | .str s => some s
  | _ => none

def Json.asBool? : Json → Option Bool
  | .bool b => some b
  | _ => none

/-- Iterating a response and subscripting each element (`for x in resp:`
then `x[...]`): a list yields its items; an empty dict or empty string
yields nothing; any other shape raises (`TypeError`) on the first element. -/
def iterItems : Json → Option (List Json)
  | .arr xs => some xs
  | .obj [] => some []
  | .str "" => some []
  | _ => none

/-- The `isinstance(resp, dict): resp = resp["items"]` normalization used by
`fetch_collections` (api.py 361-364) and `fetch_roms` (api.py 456-457);
`none` models the `KeyError` raise on a dict without the key. -/
def envelope : Json → Option Json
  | .obj fs => (Json.obj fs).get? "items"
  | j => some j

def itemsEnveloped (j : Json) : Option (List Json) :=
  (envelope j).bind iterItems

/-! ## Data model (models.py) and the status hub (status.py) -/

structure Platform where
  id : Int
  display_name : String
  slug : String
  rom_count : Int

structure Collection where
  id : Int
  name : String
  rom_count : Int
  virtual : Bool

/-- The `Rom` namedtuple. The human-readable `fs_size` pair is float-valued
display data (`_human_readable_size`) consumed by no claim and is not
modeled; the four metadata fields are stored verbatim by the code, so they
are carried as raw JSON. -/
structure Rom where
  id : Int
  name : String
  fs_name : String
  platform_slug : String
  fs_extension : String
  fs_size_bytes : Nat
  multi : Bool
  languages : Json
  regions : Json
  revision : Json
  tags : Json

/-- A save / state record: every field is read with `.get(key, default)`,
so all fields are raw JSON with the defaults already applied. -/
structure SaveRec where
  id : Json
  rom_id : Json
  user_id : Json
  file_name : Json
  file_name_no_tags : Json
  file_name_no_ext : Json
  file_extension : Json
  file_path : Json
  file_size_bytes : Json
  full_path : Json
  download_path : Json
  missing_from_fs : Json
  created_at : Json
  updated_at : Json
  emulator : Json
  screenshot : Json

/-- `Status.__init__` (status.py 31-83): connectivity flags, result lists,
selection, readiness events (`true` = the event is set; lines 70-74 set
`roms_ready`, `saves_ready`, `states_ready`, `download_rom_ready`,
`abort_download` at startup), and transfer-progress fields. -/
structure Status where
  valid_host : Bool := true
  valid_credentials : Bool := true
  platforms : List Platform := []
  collections : List Collection := []
  roms : List Rom := []
  saves : List SaveRec := []
  states : List SaveRec := []
  selected_platform : Option Platform := none
  selected_collection : Option Collection := none
  selected_virtual_collection : Option Collection := none
  platforms_ready : Bool := false
  collections_ready : Bool := false
  roms_ready : Bool := true
  saves_ready : Bool := true
  states_ready : Bool := true
  download_rom_ready : Bool := true
  abort_download : Bool := true
  multi_selected_roms : List Rom := []
  download_queue : List Rom := []
  downloading_rom : Option Rom := none
  downloading_rom_position : Nat := 0
  total_downloaded_bytes : Nat := 0
  downloaded_percent : ℚ := 0
  extracting_rom : Bool := false
  extracted_percent : ℚ := 0

/-- The freshly-initialized status singleton. -/
def Status.startup : Status := {}

/-- Deployment configuration consulted by the catalog fetches: the
environment-derived sets of `API.__init__`, the device flags and tables of
`platform_maps` / `filesystem`, and the lowercased on-disk ROM subfolders. -/
structure Config where
  env_maps : Bool
  env_platforms : List String
  exclude_platforms : List String
  include_collections : List String
  exclude_collections : List String
  is_muos : Bool
  is_spruceos : Bool
  muos_supported : List String
  spruceos_supported : List String
  es_folder_map : List (String × String × String)
  roms_subfolders : List String

/-- Python `str.lower()` (`Char.toLower` over the characters; the
byte-position-indexed `String.toLower` of core is avoided so the model stays
kernel-computable). -/
def strLower (s : String) : String := String.mk (s.toList.map Char.toLower)

/-- `platform_maps.ES_FOLDER_MAP.get(slug, (slug, slug))`. -/
def esLookup (cfg : Config) (slug : String) : String × String :=
  match cfg.es_folder_map.find? (fun e => e.1 == slug) with
  | some e => e.2
  | none => (slug, slug)

/-! ## Catalog fetches (api.py 216-512) -/

/-- The outcome of one authenticated GET as seen by the caller:
request-construction `ValueError`, a non-HTTP(S) scheme, an HTTP 403, any
other HTTP error (re-raised), a transport `URLError`, or a decoded body. -/
inductive FetchOutcome where
  | badUrl
  | badScheme
  | http403
  | httpOther
  | urlError
  | ok (body : Json)

/-- `badUrl`, `badScheme` and `urlError` are the transport-level failures of
§7 of the spec (malformed URL, non-HTTP(S) scheme, unreachable host /
timeout). -/
def FetchOutcome.isTransportFailure : FetchOutcome → Bool
  | .badUrl => true
  | .badScheme => true
  | .urlError => true
  | _ => false

/-- Result of one fetch invocation: the status afterwards, how many times
the operation's readiness event was `.set()`, and whether an exception
propagated out of the call. -/
structure FetchRes where
  st : Status
  readySets : Nat
  raised : Bool

/-- The inclusion decision of the `fetch_platforms` loop (api.py 263-294):
a custom env mapping wins unless excluded; on muOS / spruceOS the built-in
allow-list is consulted; otherwise the slug is mapped to a folder name and
must match an on-disk subfolder — each combined with the exclusion set. -/
def platformIncluded (cfg : Config) (slug : String) : Bool :=
  if cfg.env_maps && cfg.env_platforms.contains slug
      && !cfg.exclude_platforms.contains slug then
    true
  else if cfg.is_muos then
    cfg.muos_supported.contains slug && !cfg.exclude_platforms.contains slug
  else if cfg.is_spruceos then
    cfg.spruceos_supported.contains slug && !cfg.exclude_platforms.contains slug
  else
    cfg.roms_subfolders.contains (strLower (esLookup cfg slug).1)
      && !cfg.exclude_platforms.contains slug

/-- Outcomes of `_fetch_platform_icon` (api.py 161-214) as they affect the
caller: every branch but the re-raised HTTP error returns after setting the
connectivity flags (404 is the expected-absence case). -/
inductive IconOutcome where
  | ok
  | badUrl
  | badScheme
  | err403
  | err404
  | urlError
  | httpOther

/-- `_fetch_platform_icon`: the status-flag effect of each outcome; `none`
models the re-raise of an unexpected HTTP error. -/
def fetchPlatformIcon (st : Status) (o : IconOutcome) : Option Status :=
  match o with
  | .badUrl => some { st with valid_host := false, valid_credentials := false }
  | .badScheme => some { st with valid_host := false, valid_credentials := false }
  | .err403 => some { st with valid_host := true, valid_credentials := false }
  | .err404 => some { st with valid_host := true, valid_credentials := true }
  | .urlError => some { st with valid_host := false, valid_credentials := false }
  | .ok => some { st with valid_host := true, valid_credentials := true }
  | .httpOther => none

/-- The record loop of `fetch_platforms` (api.py 263-308): fields are read in
the order the code reads them (`rom_count`, then `slug`, then — only for
kept records — the constructor fields); positive-count records passing the
inclusion decision are kept, and the platform icon is fetched when it is
not cached. `none` in the second component flags a propagated exception. -/
def platformsLoop (cfg : Config) (iconCached : String → Bool)
    (iconEnv : String → IconOutcome) :
    List Json → Status → List Platform → Status × Option (List Platform)
  | [], st, acc => (st, some acc)
  | j :: js, st, acc =>
    match (j.get? "rom_count").bind Json.asInt? with
    | none => (st, none)
    | some rc =>
      if rc > 0 then
        match (j.get? "slug").bind Json.asStr? with
        | none => (st, none)
        | some slug0 =>
          let slug := strLower slug0
          if platformIncluded cfg slug then
            match (j.get? "id").bind Json.asInt?,
                (j.get? "display_name").bind Json.asStr? with
            | some id, some dn =>
              let acc := acc ++ [⟨id, dn, slug0, rc⟩]
              if iconCached slug0 then
                platformsLoop cfg iconCached iconEnv js st acc
              else
                match fetchPlatformIcon st (iconEnv slug0) with
                | none => (st, none)
                | some st' => platformsLoop cfg iconCached iconEnv js st' acc
            | _, _ => (st, none)
          else
            platformsLoop cfg iconCached iconEnv js st acc
      else
        platformsLoop cfg iconCached iconEnv js st acc

/-- `API.fetch_platforms` (api.py 216-314). Note there is no
envelope normalization here: the body is iterated directly, so a dict
body raises on its first key (`iterItems`). -/
def fetch_platforms (cfg : Config) (iconCached : String → Bool)
    (iconEnv : String → IconOutcome) (st : Status) (o : FetchOutcome) : FetchRes :=
  match o with
  | .badUrl =>
    ⟨{ st with platforms := [], valid_host := false, valid_credentials := false }, 0, false⟩
  | .badScheme =>
    ⟨{ st with platforms := [], valid_host := false, valid_credentials := false }, 0, false⟩
  | .http403 =>
    ⟨{ st with platforms := [], valid_host := true, valid_credentials := false }, 0, false⟩
  | .httpOther => ⟨st, 0, true⟩
  | .urlError =>
    ⟨{ st with platforms := [], valid_host := false, valid_credentials := false }, 0, false⟩
  | .ok body =>
    match iterItems body with
    | none => ⟨st, 0, true⟩
    | some items =>
      match platformsLoop cfg iconCached iconEnv items st [] with
      | (st', none) => ⟨st', 0, true⟩
      | (st', some ps) =>
        ⟨{ st' with
            platforms := ps, valid_host := true, valid_credentials := true,
            platforms_ready := true }, 1, false⟩

/-- The include/exclude filter of `fetch_collections` (api.py 370-375,
386-391): a non-empty include set is an allow-list and the exclude set is
then never consulted; otherwise a non-empty exclude set is a deny-list. -/
def collectionKeep (cfg : Config) (name : String) : Bool :=
  if !cfg.include_collections.isEmpty then cfg.include_collections.contains name
  else if !cfg.exclude_collections.isEmpty then !cfg.exclude_collections.contains name
  else true

/-- One record loop of `fetch_collections` (api.py 368-400), with fields
read in source order (`rom_count`, `name`, then `id` at construction);
`none` flags a propagated exception. -/
def collectionsLoop (cfg : Config) (virtual : Bool) :
    List Json → List Collection → Option (List Collection)
  | [], acc => some acc
  | j :: js, acc =>
    match (j.get? "rom_count").bind Json.asInt? with
    | none => none
    | some rc =>
      if rc > 0 then
        match (j.get? "name").bind Json.asStr? with
        | none => none
        | some name =>
          if collectionKeep cfg name then
            match (j.get? "id").bind Json.asInt? with
            | none => none
            | some id => collectionsLoop cfg virtual js (acc ++ [⟨id, name, rc, virtual⟩])
          else
            collectionsLoop cfg virtual js acc
      else
        collectionsLoop cfg virtual js acc

/-- Outcome of the paired requests of `fetch_collections`: both `urlopen`
calls sit in one `try`, so a single error outcome covers the pair. -/
inductive PairOutcome where
  | badUrl
  | badScheme
  | http403
  | httpOther
  | urlError
  | ok (body vbody : Json)

def PairOutcome.isTransportFailure : PairOutcome → Bool
  | .badUrl => true
  | .badScheme => true
  | .urlError => true
  | _ => false

/-- `API.fetch_collections` (api.py 316-405): real and virtual collections
are fetched together, both bodies accept the flat-list or `items`-envelope
shape, and the filtered results are merged into one list. -/
def fetch_collections (cfg : Config) (st : Status) (o : PairOutcome) : FetchRes :=
  match o with
  | .badUrl =>
    ⟨{ st with collections := [], valid_host := false, valid_credentials := false }, 0, false⟩
  | .badScheme =>
    ⟨{ st with collections := [], valid_host := false, valid_credentials := false }, 0, false⟩
  | .http403 =>
    ⟨{ st with collections := [], valid_host := true, valid_credentials := false }, 0, false⟩
  | .httpOther => ⟨st, 0, true⟩
  | .urlError =>
    ⟨{ st with collections := [], valid_host := false, valid_credentials := false }, 0, false⟩
  | .ok body vbody =>
    match itemsEnveloped body, itemsEnveloped vbody with
    | some items, some vitems =>
      match collectionsLoop cfg false items [] with
      | none => ⟨st, 0, true⟩
      | some cs =>
        match collectionsLoop cfg true vitems [] with
        | none => ⟨st, 0, true⟩
        | some vcs =>
          ⟨{ st with
              collections := cs ++ vcs,
              valid_host := true, valid_credentials := true,
              collections_ready := true }, 1, false⟩
    | _, _ => ⟨st, 0, true⟩

def decodeRom (j : Json) : Option Rom := do
  let id ← (j.get? "id").bind Json.asInt?
  let name ← (j.get? "name").bind Json.asStr?
  let fsn ← (j.get? "fs_name").bind Json.asStr?
  let slug ← (j.get? "platform_slug").bind Json.asStr?
  let ext ← (j.get? "fs_extension").bind Json.asStr?
  let sz ← (j.get? "fs_size_bytes").bind Json.asNat?
  let multi ← (j.get? "multi").bind Json.asBool?
  let langs ← j.get? "languages"
  let regions ← j.get? "regions"
  let revision ← j.get? "revision"
  let tags ← j.get? "tags"
  pure ⟨id, name, fsn, slug, ext, sz, multi, langs, regions, revision, tags⟩

/-- The compatibility filter of the `fetch_roms` loop (api.py 472-489);
unlike `fetch_platforms` it never consults the exclusion set. -/
def romIncluded (cfg : Config) (slug : String) : Bool :=
  if cfg.env_maps && cfg.env_platforms.contains slug then true
  else if cfg.is_muos then cfg.muos_supported.contains slug
  else if cfg.is_spruceos then cfg.spruceos_supported.contains slug
  else cfg.roms_subfolders.contains (strLower (esLookup cfg slug).1)

/-- The scope selection of `fetch_roms` (api.py 408-421): platform, then
collection, then virtual collection; `none` means no selection (no-op).
The third component is the selected platform slug used by the extra
platform-view filter. -/
def selection (st : Status) : Option (String × Int × Option String) :=
  match st.selected_platform with
  | some p => some ("platform", p.id, some (strLower p.slug))
  | none =>
    match st.selected_collection with
    | some c => some ("collection", c.id, none)
    | none =>
      match st.selected_virtual_collection with
      | some v => some ("virtual_collection", v.id, none)
      | none => none

/-- The record loop of `fetch_roms` (api.py 470-507): `platform_slug` is read
for every record, the compatibility filter and (in the platform view) the
selected-slug filter drop records, and kept records are decoded in full.
`none` flags a propagated exception. -/
def romsLoop (cfg : Config) (selSlug : Option String) :
    List Json → List Rom → Option (List Rom)
  | [], acc => some acc
  | j :: js, acc =>
    match (j.get? "platform_slug").bind Json.asStr? with
    | none => none
    | some ps =>
      let slug := strLower ps
      if romIncluded cfg slug
          && (match selSlug with
              | some s => slug == s
              | none => true) then
        match decodeRom j with
        | none => none
        | some r => romsLoop cfg selSlug js (acc ++ [r])
      else
        romsLoop cfg selSlug js acc

/-- `API.fetch_roms` (api.py 407-512). -/
def fetch_roms (cfg : Config) (st : Status) (o : FetchOutcome) : FetchRes :=
  match selection st with
  | none => ⟨st, 0, false⟩
  | some sel =>
    match o with
    | .badUrl =>
      ⟨{ st with roms := [], valid_host := false, valid_credentials := false }, 0, false⟩
    | .badScheme =>
      ⟨{ st with roms := [], valid_host := false, valid_credentials := false }, 0, false⟩
    | .http403 =>
      ⟨{ st with roms := [], valid_host := true, valid_credentials := false }, 0, false⟩
    | .httpOther => ⟨st, 0, true⟩
    | .urlError =>
      ⟨{ st with roms := [], valid_host := false, valid_credentials := false }, 0, false⟩
    | .ok body =>
      match itemsEnveloped body with
      | none => ⟨st, 0, true⟩
      | some items =>
        match romsLoop cfg sel.2.2 items [] with
        | none => ⟨st, 0, true⟩
        | some rs =>
          ⟨{ st with
              roms := rs, valid_host := true, valid_credentials := true,
              roms_ready := true }, 1, false⟩

/-! ## Bearer-token lifecycle (api.py 625-712) -/

/-- The mutable token fields of the `API` object. -/
structure TokenState where
  access_token : Option String := none
  refresh_token : Option String := none
  token_expires_at : Option ℚ := none
deriving DecidableEq

/-- A decoded `api/auth/token` response body (fields read with `.get`). -/
structure TokenResp where
  access_token : Option String
  refresh_token : Option String
  expires_in : Option ℚ
deriving DecidableEq

/-- Outcome of one POST to the token endpoint. -/
inductive TokenResult where
  | ok (r : TokenResp)
  | httpErr (code : Nat)
  | urlErr
  | exc
deriving DecidableEq

/-- The grant type of one request actually sent to the token endpoint. -/
inductive Grant where
  | password
  | refreshGrant
deriving DecidableEq

/-- `API._get_access_token` (api.py 625-663): one password-grant POST; on a
body with an access token, cache it and set the expiry `expires_in` seconds
(default 1800) after the current time; any error yields `false` with the
token state unchanged. The trace records the grant sent. -/
def get_access_token (ts : TokenState) (now : ℚ) (o : TokenResult) :
    Bool × TokenState × List Grant :=
  match o with
  | .ok r =>
    let ts' : TokenState :=
      { access_token := r.access_token, refresh_token := r.refresh_token,
        token_expires_at := ts.token_expires_at }
    match r.access_token with
    | some _ =>
      (true, { ts' with token_expires_at := some (now + r.expires_in.getD 1800) },
        [.password])
    | none => (false, ts', [.password])
  | _ => (false, ts, [.password])

/-- `API._refresh_access_token` (api.py 665-702): without a cached refresh
token, fall straight through to a password grant; otherwise one
refresh-token-grant POST, falling back to a password grant on `HTTPError`,
`URLError` or any other exception — but not on a well-formed response that
merely lacks an access token. -/
def refresh_access_token (ts : TokenState) (now : ℚ) (o₁ o₂ : TokenResult) :
    Bool × TokenState × List Grant :=
  match ts.refresh_token with
  | none => get_access_token ts now o₁
  | some _ =>
    match o₁ with
    | .ok r =>
      let ts' : TokenState :=
        { access_token := r.access_token, refresh_token := r.refresh_token,
          token_expires_at := ts.token_expires_at }
      match r.access_token with
      | some _ =>
        (true, { ts' with token_expires_at := some (now + r.expires_in.getD 1800) },
          [.refreshGrant])
      | none => (false, ts', [.refreshGrant])
    | _ =>
      let (b, ts', tr) := get_access_token ts now o₂
      (b, ts', .refreshGrant :: tr)

/-- `API._ensure_valid_token` (api.py 704-712): acquire when no token is
cached; refresh when the cached expiry is truthy (non-zero) and has passed;
otherwise succeed without any network call. -/
def ensure_valid_token (ts : TokenState) (now : ℚ) (o₁ o₂ : TokenResult) :
    Bool × TokenState × List Grant :=
  match ts.access_token with
  | none => get_access_token ts now o₁
  | some _ =>
    match ts.token_expires_at with
    | some e => if e ≠ 0 ∧ now ≥ e then refresh_access_token ts now o₁ o₂ else (true, ts, [])
    | none => (true, ts, [])

/-! ## Saves / states fetches (api.py 714-828, 940-1054) -/

def decodeSave (j : Json) : Option SaveRec := do
  let id ← j.getD? "id" .null
  let rom_id ← j.getD? "rom_id" .null
  let user_id ← j.getD? "user_id" .null
  let file_name ← j.getD? "file_name" (.str "")
  let fnnt ← j.getD? "file_name_no_tags" (.str "")
  let fnne ← j.getD? "file_name_no_ext" (.str "")
  let file_extension ← j.getD? "file_extension" (.str "")
  let file_path ← j.getD? "file_path" (.str "")
  let fsb ← j.getD? "file_size_bytes" (.num 0)
  let full_path ← j.getD? "full_path" (.str "")
  let download_path ← j.getD? "download_path" (.str "")
  let mff ← j.getD? "missing_from_fs" (.bool false)
  let created_at ← j.getD? "created_at" (.str "")
  let updated_at ← j.getD? "updated_at" (.str "")
  let emulator ← j.getD? "emulator" .null
  let screenshot ← j.getD? "screenshot" .null
  pure ⟨id, rom_id, user_id, file_name, fnnt, fnne, file_extension, file_path,
    fsb, full_path, download_path, mff, created_at, updated_at, emulator, screenshot⟩

/-- Decoding the items of one saves/states response: the decoded prefix and
whether the whole list decoded (a mid-loop failure leaves the prefix
assigned). -/
def decodeSaves : List Json → List SaveRec × Bool
  | [] => ([], true)
  | j :: js =>
    match decodeSave j with
    | none => ([], false)
    | some r =>
      let (rs, ok) := decodeSaves js
      (r :: rs, ok)

/-- Outcome of one authenticated attempt in `fetch_saves` / `fetch_states`. -/
inductive Attempt where
  | ok (body : Json)
  | httpErr (code : Nat)
  | urlErr
  | exc

/-- The bearer-token phase shared by `fetch_saves`'s two halves
(api.py 770-828): ensure a valid token (two oracle slots), then one bearer
attempt; every path ends by setting `saves_ready`. -/
def savesBearerPhase (st : Status) (ts : TokenState) (now : ℚ)
    (o₁ o₂ : TokenResult) (bearer : Attempt) : Status × TokenState × Nat :=
  let (okTok, ts', _) := ensure_valid_token ts now o₁ o₂
  if !okTok then
    ({ st with saves_ready := true }, ts', 1)
  else
    match bearer with
    | .ok body =>
      match body with
      | .arr items =>
        let (recs, ok) := decodeSaves items
        if ok then
          ({ st with saves := recs, saves_ready := true }, ts', 1)
        else
          ({ st with saves := recs, saves_ready := true }, ts', 1)
      | _ => ({ st with saves_ready := true }, ts', 1)
    | _ => ({ st with saves_ready := true }, ts', 1)

/-- `API.fetch_saves` (api.py 714-828): a basic-auth attempt whose failures
(HTTP error or any exception, including transport errors and mid-decode
failures) fall through to the bearer phase; a full basic success assigns the
list and sets `saves_ready`. -/
def fetch_saves (st : Status) (ts : TokenState) (now : ℚ)
    (o₁ o₂ : TokenResult) (basic bearer : Attempt) : Status × TokenState × Nat :=
  match basic with
  | .ok body =>
    match body with
    | .arr items =>
      let (recs, ok) := decodeSaves items
      if ok then
        ({ st with saves := recs, saves_ready := true }, ts, 1)
      else
        savesBearerPhase { st with saves := recs } ts now o₁ o₂ bearer
    | _ => savesBearerPhase st ts now o₁ o₂ bearer
  | _ => savesBearerPhase st ts now o₁ o₂ bearer

/-- The bearer-token phase of `fetch_states` (api.py 996-1054), mirroring
`savesBearerPhase` on the states fields. -/
def statesBearerPhase (st : Status) (ts : TokenState) (now : ℚ)
    (o₁ o₂ : TokenResult) (bearer : Attempt) : Status × TokenState × Nat :=
  let (okTok, ts', _) := ensure_valid_token ts now o₁ o₂
  if !okTok then
    ({ st with states_ready := true }, ts', 1)
  else
    match bearer with
    | .ok body =>
      match body with
      | .arr items =>
        let (recs, ok) := decodeSaves items
        if ok then
          ({ st with states := recs, states_ready := true }, ts', 1)
        else
          ({ st with states := recs, states_ready := true }, ts', 1)
      | _ => ({ st with states_ready := true }, ts', 1)
    | _ => ({ st with states_ready := true }, ts', 1)

/-- `API.fetch_states` (api.py 940-1054), structurally identical to
`fetch_saves` on the states fields. -/
def fetch_states (st : Status) (ts : TokenState) (now : ℚ)
    (o₁ o₂ : TokenResult) (basic bearer : Attempt) : Status × TokenState × Nat :=
  match basic with
  | .ok body =>
    match body with
    | .arr items =>
      let (recs, ok) := decodeSaves items
      if ok then
        ({ st with states := recs, states_ready := true }, ts, 1)
      else
        statesBearerPhase { st with states := recs } ts now o₁ o₂ bearer
    | _ => statesBearerPhase st ts now o₁ o₂ bearer
  | _ => statesBearerPhase st ts now o₁ o₂ bearer

/-! ## The transfer engine: `_reset_download_status` and `download_rom`
    (api.py 514-623) -/

/-- The destination filesystem: existing files and their byte sizes. -/
abbrev FS := List (String × Nat)

def fsGet (fs : FS) (p : String) : Option Nat :=
  (fs.find? (fun e => e.1 == p)).map (fun e => e.2)

/-- `open(p, 'wb')`: create or truncate. -/
def fsSet (fs : FS) (p : String) (n : Nat) : FS :=
  (fs.filter (fun e => !(e.1 == p))) ++ [(p, n)]

/-- Appending a chunk of `n` bytes to an open file. -/
def fsAdd (fs : FS) (p : String) (n : Nat) : FS :=
  fsSet fs p ((fsGet fs p).getD 0 + n)

/-- `os.remove(p)`. -/
def fsRemove (fs : FS) (p : String) : FS :=
  fs.filter (fun e => !(e.1 == p))

/-- `API._reset_download_status` (api.py 514-526): zero the progress fields,
write the given connectivity flags, clear the transfer selection and queue,
and set both the `download_rom_ready` and `abort_download` events. -/
def reset_download_status (st : Status) (valid_host valid_credentials : Bool) : Status :=
  { st with
    total_downloaded_bytes := 0
    downloaded_percent := 0
    valid_host := valid_host
    valid_credentials := valid_credentials
    downloading_rom := none
    extracting_rom := false
    multi_selected_roms := []
    download_queue := []
    download_rom_ready := true
    abort_download := true }

/-- Stable insertion of a title into a name-sorted list (before the first
entry whose name is not smaller), used to model Python's stable
`list.sort(key=lambda rom: rom.name)`. -/
def insertRom (r : Rom) : List Rom → List Rom
  | [] => [r]
  | x :: xs => if r.name ≤ x.name then r :: x :: xs else x :: insertRom r xs

/-- `download_queue.sort(key=lambda rom: rom.name)` (api.py 529): the stable
ascending sort by title name. -/
def sortByName (xs : List Rom) : List Rom := xs.foldr insertRom []

/-- One archive entry as seen through `zipfile`: its declared uncompressed
size from the central directory, and the byte counts of the successive
non-empty `read(chunk_size)` results its stream yields. -/
structure ZipEntry where
  filename : String
  file_size : Nat
  chunksE : List Nat

/-- Per-title network environment of `download_rom`: the request/stream
outcome; on success, the byte counts of the successive reads of the content
stream and (for a multi-file title) the archive entries found on disk. -/
inductive RomEnv where
  | badUrl
  | badScheme
  | http403
  | httpOther
  | urlError
  | ok (chunks : List Nat) (entries : List ZipEntry)

/-- Which phase an abort was observed in. -/
inductive Phase where
  | download
  | extraction
deriving DecidableEq

/-- Result of one `download_rom` invocation. `readySets` counts
`download_rom_ready.set()` calls, `abortInfo` records the title and phase of
an abort-branch exit, `processed` lists the queue entries whose processing
began (in order), `percentTrace` records `downloaded_percent` after each
appended chunk. -/
structure DLRes where
  st : Status
  fs : FS
  readySets : Nat
  raised : Bool
  abortInfo : Option (Rom × Phase)
  processed : List Rom
  percentTrace : List ℚ

/-- Outcome of the download chunk loop for one title. -/
inductive DLStep where
  | finished (st : Status) (fs : FS) (k : Nat) (trace : List ℚ)
  | abortedD (st : Status) (fs : FS) (k : Nat) (trace : List ℚ)

/-- The chunk loop of the download phase (api.py 557-576): before each read
the abort flag is checked; an abort resets the shared state with both flags
true and removes the partial destination file; an empty read finishes;
otherwise the chunk is appended, the flags set true, the byte total
accumulated and the percentage recomputed against the declared size plus
one virtual byte. -/
def dlLoop (ab : Nat → Bool) (rom : Rom) (dest : String) :
    List Nat → Status → FS → Nat → List ℚ → DLStep
  | chunks, st, fs, k, trace =>
    if ab k then
      .abortedD (reset_download_status st true true) (fsRemove fs dest) (k + 1) trace
    else
      match chunks with
      | [] => .finished st fs (k + 1) trace
      | c :: rest =>
        if c = 0 then .finished st fs (k + 1) trace
        else
          let fs' := fsAdd fs dest c
          let tot := st.total_downloaded_bytes + c
          let pct : ℚ := ((tot : ℚ) / ((rom.fs_size_bytes : ℚ) + 1)) * 100
          dlLoop ab rom dest rest
            { st with
              valid_host := true
              valid_credentials := true
              total_downloaded_bytes := tot
              downloaded_percent := pct }
            fs' (k + 1) (trace ++ [pct])

/-- The inner byte loop of one archive entry (api.py 596-604), read through
`zipfile.ZipExtFile`: each `read(chunk_size)` result is truncated to the
bytes still owed by the entry's declared `file_size` (CPython's
`data = data[:self._left]`, with `_left` initialized to `file_size`), an
empty read ends the loop, and otherwise the chunk is written, the extracted
total accumulated, and `extracted_percent` recomputed as
`extracted / total_size * 100` — a division that would raise
`ZeroDivisionError` (flagged in the fourth component) if it were ever
executed with a zero total declared size. -/
def exChunks (total : Nat) (fpath : String) :
    List Nat → Nat → Status → FS → Nat → Status × FS × Nat × Bool
  | [], _, st, fs, ex => (st, fs, ex, false)
  | c :: rest, left, st, fs, ex =>
    if min c left = 0 then (st, fs, ex, false)
    else
      let fs' := fsAdd fs fpath (min c left)
      let ex' := ex + min c left
      if total = 0 then (st, fs', ex', true)
      else
        exChunks total fpath rest (left - min c left)
          { st with extracted_percent := ((ex' : ℚ) / (total : ℚ)) * 100 }
          fs' ex'

/-- Outcome of the extraction entry loop. -/
inductive ExStep where
  | exDone (st : Status) (fs : FS) (k : Nat)
  | exAborted (st : Status) (fs : FS) (k : Nat)
  | exRaised (st : Status) (fs : FS) (k : Nat)

/-- The entry loop of the extraction phase (api.py 585-608): before each
entry the abort flag is checked (abort resets state with both flags true and
removes the archive); otherwise the entry's sanitized destination is opened
and its bytes streamed. -/
def exLoop (ab : Nat → Bool) (destDir dest : String) (total : Nat) :
    List ZipEntry → Status → FS → Nat → Nat → ExStep
  | entries, st, fs, k, ex =>
    match entries with
    | [] => .exDone st fs k
    | e :: rest =>
      if ab k then
        .exAborted (reset_download_status st true true) (fsRemove fs dest) (k + 1)
      else
        let fpath := osJoinS destDir (sanitizeS e.filename)
        let fs' := fsSet fs fpath 0
        match exChunks total fpath e.chunksE e.file_size st fs' ex with
        | (st', fs'', _, true) => .exRaised st' fs'' (k + 1)
        | (st', fs'', ex', false) => exLoop ab destDir dest total rest st' fs'' (k + 1) ex'

/-- The destination path of one title (api.py 533-536):
`os.path.join(get_platforms_storage_path(slug), _sanitize_filename(fs_name))`,
with the storage-path convention abstracted as `platDir`. -/
def destOf (platDir : String → String) (rom : Rom) : String :=
  osJoinS (platDir rom.platform_slug) (sanitizeS rom.fs_name)

/-- The queue loop of `API.download_rom` (api.py 530-623): each entry is
announced in the status, its request built and streamed through `dlLoop`,
multi-file titles are extracted through `exLoop` and the archive removed,
errors are classified (`ValueError`/scheme → reset(false,false); HTTP 403 →
reset(valid_host:=true); `URLError` → reset(valid_host:=true); other HTTP
errors re-raise), and the end of the queue resets with both flags true. -/
def queueLoop (platDir : String → String) (env : Rom → RomEnv) (ab : Nat → Bool) :
    List Rom → Nat → Status → FS → Nat → List ℚ → List Rom → DLRes
  | [], _, st, fs, _, trace, proc =>
    ⟨reset_download_status st true true, fs, 1, false, none, proc, trace⟩
  | rom :: rest, i, st, fs, k, trace, proc =>
    let st := { st with downloading_rom := some rom, downloading_rom_position := i }
    let proc := proc ++ [rom]
    let dest := destOf platDir rom
    match env rom with
    | .badUrl => ⟨reset_download_status st false false, fs, 1, false, none, proc, trace⟩
    | .badScheme => ⟨reset_download_status st false false, fs, 1, false, none, proc, trace⟩
    | .http403 => ⟨reset_download_status st true false, fs, 1, false, none, proc, trace⟩
    | .httpOther => ⟨st, fs, 0, true, none, proc, trace⟩
    | .urlError => ⟨reset_download_status st true false, fs, 1, false, none, proc, trace⟩
    | .ok chunks entries =>
      let fs := fsSet fs dest 0
      let st := { st with total_downloaded_bytes := 0 }
      match dlLoop ab rom dest chunks st fs k trace with
      | .abortedD st' fs' _ trace' =>
        ⟨st', fs', 1, false, some (rom, .download), proc, trace'⟩
      | .finished st' fs' k' trace' =>
        if rom.multi then
          let st2 := { st' with extracting_rom := true }
          let total := (entries.map (fun e => e.file_size)).sum
          match exLoop ab (dirnameS dest) dest total entries st2 fs' k' 0 with
          | .exAborted st3 fs3 _ =>
            ⟨st3, fs3, 1, false, some (rom, .extraction), proc, trace'⟩
          | .exRaised st3 fs3 _ => ⟨st3, fs3, 0, true, none, proc, trace'⟩
          | .exDone st3 fs3 k3 =>
            let st4 := { st3 with extracting_rom := false, downloading_rom := none }
            queueLoop platDir env ab rest (i + 1) st4 (fsRemove fs3 dest) k3 trace' proc
        else
          queueLoop platDir env ab rest (i + 1) st' fs' k' trace' proc

/-- `API.download_rom` (api.py 528-623): sort the queue by name in place,
then drain it. The effective abort flag at the n-th check is the event's
value at entry joined with the consumer's concurrent `set()` schedule. -/
def download_rom (platDir : String → String) (env : Rom → RomEnv)
    (abortIn : Nat → Bool) (st : Status) (fs : FS) : DLRes :=
  let sorted := sortByName st.download_queue
  let st := { st with download_queue := sorted }
  queueLoop platDir env (fun k => st.abort_download || abortIn k) sorted 1 st fs 0 [] []

/-! ## Derived notions used by the claims -/

/-- The error returns shared by the catalog fetches: bad URL, bad scheme,
HTTP 403 and transport error all return without setting the readiness
event. -/
def FetchOutcome.isErrReturn : FetchOutcome → Bool
  | .badUrl => true
  | .badScheme => true
  | .http403 => true
  | .urlError => true
  | _ => false

def PairOutcome.isErrReturn : PairOutcome → Bool
  | .badUrl => true
  | .badScheme => true
  | .http403 => true
  | .urlError => true
  | _ => false

def Attempt.isErr : Attempt → Bool
  | .ok _ => false
  | _ => true

def TokenResult.isErr : TokenResult → Bool
  | .ok _ => false
  | _ => true

/-- Running byte totals after each chunk, starting from `a`. -/
def prefixSums (a : Nat) : List Nat → List Nat
  | [] => []
  | c :: rest => (a + c) :: prefixSums (a + c) rest

/-- The status-snapshot invariant of the claims: an unreachable host never
coexists with accepted credentials. -/
def flagsOK (st : Status) : Prop :=
  st.valid_host = false → st.valid_credentials = false

/-! ## Concrete fixtures for counterexamples and witnesses -/

def romA : Rom :=
  { id := 1, name := "A", fs_name := "a.bin", platform_slug := "snes",
    fs_extension := "bin", fs_size_bytes := 4, multi := false,
    languages := .arr [], regions := .arr [], revision := .null, tags := .arr [] }

/-- A multi-file (archive) title. -/
def romM : Rom :=
  { id := 2, name := "M", fs_name := "m.zip", platform_slug := "snes",
    fs_extension := "zip", fs_size_bytes := 4, multi := true,
    languages := .arr [], regions := .arr [], revision := .null, tags := .arr [] }

/-- A status ready to download `romA`: the consumer cleared the abort event
and queued the title. -/
def stA : Status :=
  { Status.startup with abort_download := false, download_queue := [romA] }

/-- A status ready to download the archive title `romM`. -/
def stM : Status :=
  { Status.startup with abort_download := false, download_queue := [romM] }

/-- A deployment where the slug `snes` is enabled through a custom env map
and no collection filters are configured. -/
def cfgA : Config :=
  { env_maps := true, env_platforms := ["snes"], exclude_platforms := [],
    include_collections := [], exclude_collections := [],
    is_muos := false, is_spruceos := false,
    muos_supported := [], spruceos_supported := [],
    es_folder_map := [], roms_subfolders := [] }

/-- A sample save record already present in the status. -/
def svA : SaveRec :=
  { id := .num 7, rom_id := .num 1, user_id := .num 1,
    file_name := .str "a.srm", file_name_no_tags := .str "a",
    file_name_no_ext := .str "a", file_extension := .str "srm",
    file_path := .str "", file_size_bytes := .num 10, full_path := .str "",
    download_path := .str "", missing_from_fs := .bool false,
    created_at := .str "", updated_at := .str "", emulator := .null,
    screenshot := .null }

/-! ## Facts about the filesystem model and the download loops -/

theorem fsGet_fsRemove (fs : FS) (p : String) : fsGet (fsRemove fs p) p = none := by
  induction fs with
  | nil => rfl
  | cons e rest ih =>
    cases he : (e.1 == p) with
    | true =>
      have h2 : fsRemove (e :: rest) p = fsRemove rest p := by
        simp [fsRemove, List.filter_cons, he]
      rw [h2]
      exact ih
    | false =>
      have h2 : fsRemove (e :: rest) p = e :: fsRemove rest p := by
        simp [fsRemove, List.filter_cons, he]
      rw [h2]
      show (List.find? (fun e => e.1 == p) (e :: fsRemove rest p)).map (fun e => e.2) = none
      rw [List.find?_cons_of_neg _ (by simp [he])]
      exact ih

/-- Every `abortedD` exit of the chunk loop carries a reset status and a
filesystem from which the destination was removed. -/
theorem dlLoop_aborted (ab : Nat → Bool) (rom : Rom) (dest : String) :
    ∀ (chunks : List Nat) st fs k trace st' fs' k' trace',
    dlLoop ab rom dest chunks st fs k trace = .abortedD st' fs' k' trace' →
    ∃ st₀ fs₀, st' = reset_download_status st₀ true true ∧ fs' = fsRemove fs₀ dest := by
  intro chunks
  induction chunks with
  | nil =>
    intro st fs k trace st' fs' k' trace' h
    rw [dlLoop] at h
    split at h
    · injection h with h1 h2 h3 h4
      exact ⟨st, fs, h1.symm, h2.symm⟩
    · exact absurd h (by simp)
  | cons c rest ih =>
    intro st fs k trace st' fs' k' trace' h
    rw [dlLoop] at h
    split at h
    · injection h with h1 h2 h3 h4
      exact ⟨st, fs, h1.symm, h2.symm⟩
    · by_cases hc : c = 0
      · simp only [hc, if_pos rfl] at h
        exact absurd h (by simp)
      · simp only [if_neg hc] at h
        exact ih _ _ _ _ _ _ _ _ h

/-- With the abort flag never set and only non-empty reads, the chunk loop
finishes, appending to the trace one percentage per chunk — each computed
from the running total over the declared size plus one — and accumulating
the byte total; no other progress field is touched. -/
theorem dlLoop_no_abort (ab : Nat → Bool) (rom : Rom) (dest : String)
    (hab : ∀ k, ab k = false) :
    ∀ (chunks : List Nat), (∀ c ∈ chunks, c ≠ 0) →
    ∀ st fs k trace,
    ∃ st' fs' k',
      dlLoop ab rom dest chunks st fs k trace =
        .finished st' fs' k'
          (trace ++ (prefixSums st.total_downloaded_bytes chunks).map
            (fun (p : Nat) => ((p : ℚ) / ((rom.fs_size_bytes : ℚ) + 1)) * 100))
      ∧ st'.total_downloaded_bytes = st.total_downloaded_bytes + chunks.sum
      ∧ st'.extracted_percent = st.extracted_percent
      ∧ st'.extracting_rom = st.extracting_rom
      ∧ st'.downloading_rom = st.downloading_rom
      ∧ st'.download_queue = st.download_queue
      ∧ (st'.valid_host = st.valid_host ∧ st'.valid_credentials = st.valid_credentials
          ∨ st'.valid_host = true ∧ st'.valid_credentials = true) := by
  intro chunks
  induction chunks with
  | nil =>
    intro _ st fs k trace
    refine ⟨st, fs, k + 1, ?_, by simp, rfl, rfl, rfl, rfl, Or.inl ⟨rfl, rfl⟩⟩
    rw [dlLoop]
    simp [hab, prefixSums]
  | cons c rest ih =>
    intro h st fs k trace
    have hc : c ≠ 0 := h c (List.mem_cons_self _ _)
    obtain ⟨st', fs', k', heq, htot, hex, hexr, hdr, hdq, hflags⟩ :=
      ih (fun d hd => h d (List.mem_cons_of_mem c hd))
        { st with
          valid_host := true
          valid_credentials := true
          total_downloaded_bytes := st.total_downloaded_bytes + c
          downloaded_percent :=
            (((st.total_downloaded_bytes + c : Nat) : ℚ) /
              ((rom.fs_size_bytes : ℚ) + 1)) * 100 }
        (fsAdd fs dest c) (k + 1)
        (trace ++ [(((st.total_downloaded_bytes + c : Nat) : ℚ) /
          ((rom.fs_size_bytes : ℚ) + 1)) * 100])
    refine ⟨st', fs', k', ?_, ?_, hex, hexr, hdr, hdq, ?_⟩
    · rw [dlLoop]
      simp only [hab, if_neg (by simp : ¬(false = true)), if_neg hc]
      rw [heq]
      simp [prefixSums, List.append_assoc]
    · simpa [Nat.add_assoc] using htot
    · rcases hflags with ⟨h1, h2⟩ | h1
      · exact Or.inr ⟨h1, h2⟩
      · exact Or.inr h1

/-- With the abort flag never set and every entry byte-free, the extraction
entry loop completes without touching the status. -/
theorem exLoop_empty_entries (ab : Nat → Bool) (destDir dest : String) (total : Nat)
    (hab : ∀ k, ab k = false) :
    ∀ (entries : List ZipEntry), (∀ e ∈ entries, e.chunksE = []) →
    ∀ st fs k ex,
    ∃ fs' k', exLoop ab destDir dest total entries st fs k ex = .exDone st fs' k' := by
  intro entries
  induction entries with
  | nil => intro _ st fs k ex; exact ⟨fs, k, by rw [exLoop]⟩
  | cons e rest ih =>
    intro h st fs k ex
    have he : e.chunksE = [] := h e (List.mem_cons_self _ _)
    obtain ⟨fs', k', heq⟩ := ih (fun d hd => h d (List.mem_cons_of_mem e hd)) st
      (fsSet fs (osJoinS destDir (sanitizeS e.filename)) 0) (k + 1) ex
    refine ⟨fs', k', ?_⟩
    rw [exLoop]
    simp only [hab, if_neg (by simp : ¬(false = true)), he]
    rw [show exChunks total (osJoinS destDir (sanitizeS e.filename)) []
        e.file_size st (fsSet fs (osJoinS destDir (sanitizeS e.filename)) 0) ex =
        (st, fsSet fs (osJoinS destDir (sanitizeS e.filename)) 0, ex, false) from rfl]
    exact heq

/-- An entry whose declared size is zero yields no bytes: every read is
truncated to the empty chunk and the byte loop returns at once. -/
theorem exChunks_zero_left (total : Nat) (fpath : String) (chunks : List Nat)
    (st : Status) (fs : FS) (ex : Nat) :
    exChunks total fpath chunks 0 st fs ex = (st, fs, ex, false) := by
  cases chunks with
  | nil => rfl
  | cons c rest => rw [exChunks]; simp

/-- With the abort flag never set and every entry's declared size zero, the
extraction entry loop completes without touching the status: the truncated
reads are all empty, so the progress division is never executed. -/
theorem exLoop_zero_sizes (ab : Nat → Bool) (destDir dest : String) (total : Nat)
    (hab : ∀ k, ab k = false) :
    ∀ (entries : List ZipEntry), (∀ e ∈ entries, e.file_size = 0) →
    ∀ st fs k ex,
    ∃ fs' k', exLoop ab destDir dest total entries st fs k ex = .exDone st fs' k' := by
  intro entries
  induction entries with
  | nil => intro _ st fs k ex; exact ⟨fs, k, by rw [exLoop]⟩
  | cons e rest ih =>
    intro h st fs k ex
    have he : e.file_size = 0 := h e (List.mem_cons_self _ _)
    obtain ⟨fs', k', heq⟩ := ih (fun d hd => h d (List.mem_cons_of_mem e hd)) st
      (fsSet fs (osJoinS destDir (sanitizeS e.filename)) 0) (k + 1) ex
    refine ⟨fs', k', ?_⟩
    rw [exLoop]
    simp only [hab, if_neg (by simp : ¬(false = true)), he, exChunks_zero_left]
    exact heq

/-- Every `exAborted` exit of the extraction loop carries a reset status and
a filesystem from which the archive was removed. -/
theorem exLoop_aborted (ab : Nat → Bool) (destDir dest : String) (total : Nat) :
    ∀ (entries : List ZipEntry) st fs k ex st' fs' k',
    exLoop ab destDir dest total entries st fs k ex = .exAborted st' fs' k' →
    ∃ st₀ fs₀, st' = reset_download_status st₀ true true ∧ fs' = fsRemove fs₀ dest := by
  intro entries
  induction entries with
  | nil =>
    intro st fs k ex st' fs' k' h
    rw [exLoop] at h
    exact absurd h (by simp)
  | cons e rest ih =>
    intro st fs k ex st' fs' k' h
    rw [exLoop] at h
    split at h
    · injection h with h1 h2 h3
      exact ⟨st, fs, h1.symm, h2.symm⟩
    · dsimp only at h
      rcases hec : exChunks total (osJoinS destDir (sanitizeS e.filename)) e.chunksE
          e.file_size st
          (fsSet fs (osJoinS destDir (sanitizeS e.filename)) 0) ex with ⟨st1, fs1, ex1, raised⟩
      rw [hec] at h
      cases raised
      · exact ih _ _ _ _ _ _ _ h
      · exact absurd h (by simp)

theorem prefixSums_mem_le (chunks : List Nat) :
    ∀ a p, p ∈ prefixSums a chunks → p ≤ a + chunks.sum := by
  induction chunks with
  | nil => intro a p hp; simp [prefixSums] at hp
  | cons c rest ih =>
    intro a p hp
    simp only [prefixSums, List.mem_cons] at hp
    rcases hp with hp | hp
    · subst hp; simp only [List.sum_cons]; omega
    · have := ih (a + c) p hp
      simp only [List.sum_cons]
      omega

theorem prefixSums_getLast? (chunks : List Nat) :
    ∀ a, chunks ≠ [] → (prefixSums a chunks).getLast? = some (a + chunks.sum) := by
  induction chunks with
  | nil => intro a h; exact absurd rfl h
  | cons c rest ih =>
    intro a _
    cases hr : rest with
    | nil => simp [prefixSums, hr]
    | cons d ds =>
      have hih := ih (a + c) (by simp [hr])
      rw [hr] at hih
      simp only [prefixSums, hr, List.getLast?_cons_cons]
      calc (prefixSums (a + c) (d :: ds)).getLast?
          = some (a + c + (d :: ds).sum) := hih
        _ = some (a + (c :: d :: ds).sum) := by
            simp only [List.sum_cons]
            congr 1
            omega

/-- If the queue loop exits through the download-phase abort branch for a
title, that title's destination file has been removed, the processed titles
are exactly a queue prefix ending at that title, and the status is a
`(true, true)` reset. -/
theorem queueLoop_abort_download (platDir : String → String) (env : Rom → RomEnv)
    (ab : Nat → Bool) (rom : Rom) :
    ∀ (queue : List Rom) i st fs k trace proc res,
    queueLoop platDir env ab queue i st fs k trace proc = res →
    res.abortInfo = some (rom, .download) →
    fsGet res.fs (destOf platDir rom) = none
    ∧ (∃ pre suffix, queue = pre ++ rom :: suffix
        ∧ res.processed = proc ++ pre ++ [rom])
    ∧ (∃ st0, res.st = reset_download_status st0 true true) := by
  intro queue
  induction queue with
  | nil =>
    intro i st fs k trace proc res hres h
    rw [queueLoop] at hres
    subst hres
    simp at h
  | cons r rest ih =>
    intro i st fs k trace proc res hres h
    rw [queueLoop] at hres
    rcases henv : env r with _ | _ | _ | _ | _ | ⟨chunks, entries⟩ <;>
      (try rw [henv] at hres) <;> (try dsimp only at hres)
    case badUrl => subst hres; simp at h
    case badScheme => subst hres; simp at h
    case http403 => subst hres; simp at h
    case httpOther => subst hres; simp at h
    case urlError => subst hres; simp at h
    case ok =>
      rcases hdl : dlLoop ab r (destOf platDir r) chunks
          { st with
              downloading_rom := some r, downloading_rom_position := i,
              total_downloaded_bytes := 0 }
          (fsSet fs (destOf platDir r) 0) k trace with
        ⟨st1, fs1, k1, tr1⟩ | ⟨st1, fs1, k1, tr1⟩ <;>
        (try rw [hdl] at hres) <;> (try dsimp only at hres)
      case abortedD =>
        subst hres
        dsimp only at h
        injection h with h1
        injection h1 with hr hphase
        subst hr
        obtain ⟨st0, fs0, hst, hfs⟩ :=
          dlLoop_aborted ab r (destOf platDir r) _ _ _ _ _ _ _ _ _ hdl
        refine ⟨?_, ⟨[], rest, by simp, by simp⟩, ⟨st0, by simpa using hst⟩⟩
        simpa [hfs] using fsGet_fsRemove fs0 (destOf platDir r)
      case finished =>
        cases hm : r.multi <;> simp only [hm] at hres <;>
          (try simp only [Bool.false_eq_true, if_false, if_true] at hres) <;>
          (try dsimp only at hres)
        case false =>
          obtain ⟨h1, ⟨pre, suf, hqe, hproc⟩, h3⟩ := ih _ _ _ _ _ _ _ hres h
          refine ⟨h1, ⟨r :: pre, suf, by simp [hqe], ?_⟩, h3⟩
          rw [hproc]
          simp
        case true =>
          rcases hex : exLoop ab (dirnameS (destOf platDir r)) (destOf platDir r)
              ((entries.map (fun e => e.file_size)).sum) entries
              { st1 with extracting_rom := true } fs1 k1 0 with
            ⟨st2, fs2, k2⟩ | ⟨st2, fs2, k2⟩ | ⟨st2, fs2, k2⟩ <;>
            (try rw [hex] at hres) <;> (try dsimp only at hres)
          case exDone =>
            obtain ⟨h1, ⟨pre, suf, hqe, hproc⟩, h3⟩ := ih _ _ _ _ _ _ _ hres h
            refine ⟨h1, ⟨r :: pre, suf, by simp [hqe], ?_⟩, h3⟩
            rw [hproc]
            simp
          case exAborted => subst hres; simp at h
          case exRaised => subst hres; simp at h

/-- For a singleton queue whose title streams successfully with no abort,
the final percent trace is exactly one entry per chunk, each the running
total over the declared size plus one. -/
theorem queueLoop_single_ok (platDir : String → String) (env : Rom → RomEnv)
    (ab : Nat → Bool) (rom : Rom) (chunks : List Nat) (entries : List ZipEntry)
    (henv : env rom = .ok chunks entries) (hab : ∀ k, ab k = false)
    (hch : ∀ c ∈ chunks, c ≠ 0) :
    ∀ i st fs k trace proc,
    (queueLoop platDir env ab [rom] i st fs k trace proc).percentTrace =
      trace ++ (prefixSums 0 chunks).map
        (fun (p : Nat) => ((p : ℚ) / ((rom.fs_size_bytes : ℚ) + 1)) * 100) := by
  intro i st fs k trace proc
  rw [queueLoop, henv]
  dsimp only
  obtain ⟨st', fs', k', heq, _, _, _, _, _, _⟩ :=
    dlLoop_no_abort ab rom (destOf platDir rom) hab chunks hch
      { st with
          downloading_rom := some rom, downloading_rom_position := i,
          total_downloaded_bytes := 0 }
      (fsSet fs (destOf platDir rom) 0) k trace
  rw [heq]
  dsimp only
  cases hm : rom.multi
  · simp only [hm, Bool.false_eq_true, if_false]
    rw [queueLoop]
  · simp only [hm, if_true]
    rcases hex : exLoop ab (dirnameS (destOf platDir rom)) (destOf platDir rom)
        ((entries.map (fun e => e.file_size)).sum) entries
        { st' with extracting_rom := true } fs' k' 0 with
      ⟨st2, fs2, k2⟩ | ⟨st2, fs2, k2⟩ | ⟨st2, fs2, k2⟩ <;> (try rw [hex]) <;> dsimp only
    rw [queueLoop]

/-- For a singleton multi-file queue whose archive entries all carry zero
bytes, the invocation completes: nothing raises, `extracted_percent` is
never recomputed, the archive is removed and the readiness event is set
once. -/
theorem queueLoop_single_zero_archive (platDir : String → String) (env : Rom → RomEnv)
    (ab : Nat → Bool) (rom : Rom) (chunks : List Nat) (entries : List ZipEntry)
    (henv : env rom = .ok chunks entries) (hab : ∀ k, ab k = false)
    (hch : ∀ c ∈ chunks, c ≠ 0) (hm : rom.multi = true)
    (hz : ∀ e ∈ entries, e.file_size = 0) :
    ∀ i st fs k trace proc,
    (queueLoop platDir env ab [rom] i st fs k trace proc).raised = false
    ∧ (queueLoop platDir env ab [rom] i st fs k trace proc).st.extracted_percent =
        st.extracted_percent
    ∧ fsGet (queueLoop platDir env ab [rom] i st fs k trace proc).fs
        (destOf platDir rom) = none
    ∧ (queueLoop platDir env ab [rom] i st fs k trace proc).readySets = 1 := by
  intro i st fs k trace proc
  rw [queueLoop, henv]
  dsimp only
  obtain ⟨st', fs', k', heq, _, hexp, _, _, _, _⟩ :=
    dlLoop_no_abort ab rom (destOf platDir rom) hab chunks hch
      { st with
          downloading_rom := some rom, downloading_rom_position := i,
          total_downloaded_bytes := 0 }
      (fsSet fs (destOf platDir rom) 0) k trace
  rw [heq]
  dsimp only
  simp only [hm, if_true]
  obtain ⟨fs2, k2, hex⟩ :=
    exLoop_zero_sizes ab (dirnameS (destOf platDir rom)) (destOf platDir rom)
      ((entries.map (fun e => e.file_size)).sum) hab entries hz
      { st' with extracting_rom := true } fs' k' 0
  rw [hex]
  dsimp only
  rw [queueLoop]
  refine ⟨rfl, ?_, ?_, rfl⟩
  · simpa [reset_download_status] using hexp
  · exact fsGet_fsRemove fs2 (destOf platDir rom)

/-- C2: if the abort flag is observed before a chunk read during the
download phase of a queued title, `download_rom` deletes the
partially-written destination file, processes no later queue entry (the
processed titles are a prefix of the sorted queue ending at that title),
and resets the shared progress/queue state with `valid_host` and
`valid_credentials` both `true`. -/
theorem C2_abort_mid_download (platDir : String → String) (env : Rom → RomEnv)
    (abortIn : Nat → Bool) (st : Status) (fs : FS) (rom : Rom)
    (h : (download_rom platDir env abortIn st fs).abortInfo = some (rom, Phase.download)) :
    fsGet (download_rom platDir env abortIn st fs).fs (destOf platDir rom) = none
    ∧ (∃ pre suffix, sortByName st.download_queue = pre ++ rom :: suffix
        ∧ (download_rom platDir env abortIn st fs).processed = pre ++ [rom])
    ∧ (download_rom platDir env abortIn st fs).st.total_downloaded_bytes = 0
    ∧ (download_rom platDir env abortIn st fs).st.downloaded_percent = 0
    ∧ (download_rom platDir env abortIn st fs).st.valid_host = true
    ∧ (download_rom platDir env abortIn st fs).st.valid_credentials = true
    ∧ (download_rom platDir env abortIn st fs).st.downloading_rom = none
    ∧ (download_rom platDir env abortIn st fs).st.extracting_rom = false
    ∧ (download_rom platDir env abortIn st fs).st.multi_selected_roms = []
    ∧ (download_rom platDir env abortIn st fs).st.download_queue = []
    ∧ (download_rom platDir env abortIn st fs).st.download_rom_ready = true
    ∧ (download_rom platDir env abortIn st fs).st.abort_download = true := by
  obtain ⟨h1, ⟨pre, suf, hqe, hproc⟩, st0, hst⟩ :=
    queueLoop_abort_download platDir env
      (fun k =>
        ({ st with download_queue := sortByName st.download_queue } : Status).abort_download
          || abortIn k)
      rom (sortByName st.download_queue) 1
      { st with download_queue := sortByName st.download_queue } fs 0 [] []
      (download_rom platDir env abortIn st fs) rfl h
  refine ⟨h1, ⟨pre, suf, hqe, by simpa using hproc⟩,
    ?_, ?_, ?_, ?_, ?_, ?_, ?_, ?_, ?_, ?_⟩ <;>
    simp [hst, reset_download_status]

/-- The run of the C2 witness: `romA` queued, its content served in one
chunk, the consumer's abort arriving before the first read. -/
def dlResAbort : DLRes :=
  download_rom (fun _ => "roms") (fun _ => .ok [4] []) (fun _ => true) stA []

theorem C2_abort_mid_download_witness :
    dlResAbort.abortInfo = some (romA, Phase.download)
    ∧ (fsGet dlResAbort.fs (destOf (fun _ => "roms") romA) = none
       ∧ (∃ pre suffix, sortByName stA.download_queue = pre ++ romA :: suffix
           ∧ dlResAbort.processed = pre ++ [romA])
       ∧ dlResAbort.st.total_downloaded_bytes = 0
       ∧ dlResAbort.st.downloaded_percent = 0
       ∧ dlResAbort.st.valid_host = true
       ∧ dlResAbort.st.valid_credentials = true
       ∧ dlResAbort.st.downloading_rom = none
       ∧ dlResAbort.st.extracting_rom = false
       ∧ dlResAbort.st.multi_selected_roms = []
       ∧ dlResAbort.st.download_queue = []
       ∧ dlResAbort.st.download_rom_ready = true
       ∧ dlResAbort.st.abort_download = true) :=
  ⟨rfl, C2_abort_mid_download (fun _ => "roms") (fun _ => .ok [4] []) (fun _ => true)
    stA [] romA rfl⟩

/-- C3 counterexample: a title of declared size 4 fully downloaded in one
4-byte chunk; the code records `4 / (4 + 1) * 100 = 80`, not the claimed
`4 / max 4 1 * 100 = 100`. -/
theorem C3_counterexample :
    (download_rom (fun _ => "roms") (fun _ => .ok [4] []) (fun _ => false) stA []).percentTrace
      = [4 / 5 * 100]
    ∧ (4 : ℚ) / 5 * 100 ≠ 100
    ∧ ((4 : ℚ) / max 4 1) * 100 = 100 := by
  refine ⟨?_, by norm_num, by norm_num⟩
  simp [download_rom, queueLoop, dlLoop, stA, sortByName, insertRom, Status.startup, romA,
    fsSet, fsAdd, fsGet, fsRemove, reset_download_status]
  norm_num

/-- C3 (amended): after every appended chunk, `downloaded_percent` equals
`transferred / (declared_size + 1) * 100` — one virtual byte is added to the
declared size, rather than clamping it to at least 1 — so a fully downloaded
title of declared size N ends at `N / (N + 1) * 100`, which is approximately
100 and strictly below 100. -/
theorem C3_percent_formula (platDir : String → String) (rom : Rom) (chunks : List Nat)
    (entries : List ZipEntry) (st : Status) (fs : FS)
    (hq : st.download_queue = [rom]) (habd : st.abort_download = false)
    (hch : ∀ c ∈ chunks, c ≠ 0) (hsum : chunks.sum = rom.fs_size_bytes) :
    (download_rom platDir (fun _ => .ok chunks entries) (fun _ => false) st fs).percentTrace
      = (prefixSums 0 chunks).map
          (fun (p : Nat) => ((p : ℚ) / ((rom.fs_size_bytes : ℚ) + 1)) * 100)
    ∧ (∀ x ∈ (download_rom platDir (fun _ => .ok chunks entries)
          (fun _ => false) st fs).percentTrace, x < 100)
    ∧ (chunks ≠ [] →
        (download_rom platDir (fun _ => .ok chunks entries)
            (fun _ => false) st fs).percentTrace.getLast? =
          some (((rom.fs_size_bytes : ℚ) / ((rom.fs_size_bytes : ℚ) + 1)) * 100)) := by
  have hsort : sortByName st.download_queue = [rom] := by rw [hq]; rfl
  have htr : (download_rom platDir (fun _ => .ok chunks entries)
      (fun _ => false) st fs).percentTrace =
      (prefixSums 0 chunks).map
        (fun (p : Nat) => ((p : ℚ) / ((rom.fs_size_bytes : ℚ) + 1)) * 100) := by
    show (queueLoop platDir (fun _ => .ok chunks entries)
        (fun k =>
          ({ st with download_queue := sortByName st.download_queue } : Status).abort_download
            || false)
        (sortByName st.download_queue) 1
        { st with download_queue := sortByName st.download_queue } fs 0 [] []).percentTrace = _
    rw [hsort]
    have hq1 := queueLoop_single_ok platDir (fun _ => .ok chunks entries)
      (fun k =>
        ({ st with download_queue := [rom] } : Status).abort_download || false)
      rom chunks entries rfl (by intro k; simp [habd]) hch 1
      { st with download_queue := [rom] } fs 0 [] []
    simpa using hq1
  refine ⟨htr, ?_, ?_⟩
  · intro x hx
    rw [htr] at hx
    obtain ⟨p, hp, rfl⟩ := List.mem_map.mp hx
    have hple : p ≤ rom.fs_size_bytes := by
      have := prefixSums_mem_le chunks 0 p hp
      omega
    have hlt : (p : ℚ) < (rom.fs_size_bytes : ℚ) + 1 := by
      exact_mod_cast Nat.lt_succ_of_le hple
    have hpos : (0 : ℚ) < (rom.fs_size_bytes : ℚ) + 1 := by positivity
    have hdiv : (p : ℚ) / ((rom.fs_size_bytes : ℚ) + 1) < 1 := (div_lt_one hpos).mpr hlt
    calc (p : ℚ) / ((rom.fs_size_bytes : ℚ) + 1) * 100
        < 1 * 100 := by
          exact mul_lt_mul_of_pos_right hdiv (by norm_num)
      _ = 100 := by norm_num
  · intro hne
    rw [htr, List.getLast?_map, prefixSums_getLast? chunks 0 hne]
    simp [hsum]

theorem C3_percent_formula_witness :
    stA.download_queue = [romA] ∧ stA.abort_download = false
    ∧ (∀ c ∈ [4], c ≠ 0) ∧ [4].sum = romA.fs_size_bytes
    ∧ ((download_rom (fun _ => "roms") (fun _ => .ok [4] [])
          (fun _ => false) stA []).percentTrace
        = (prefixSums 0 [4]).map
            (fun (p : Nat) => ((p : ℚ) / ((romA.fs_size_bytes : ℚ) + 1)) * 100)
      ∧ (∀ x ∈ (download_rom (fun _ => "roms") (fun _ => .ok [4] [])
            (fun _ => false) stA []).percentTrace, x < 100)
      ∧ ([4] ≠ ([] : List Nat) →
          (download_rom (fun _ => "roms") (fun _ => .ok [4] [])
              (fun _ => false) stA []).percentTrace.getLast? =
            some (((romA.fs_size_bytes : ℚ) / ((romA.fs_size_bytes : ℚ) + 1)) * 100))) :=
  ⟨rfl, rfl, by decide, rfl,
    C3_percent_formula (fun _ => "roms") romA [4] [] stA [] rfl rfl (by decide) rfl⟩

/-- C4: the extraction-progress expression `extracted / total_size * 100`
carries no textual division guard, but every read of an archive entry is
truncated to the entry's declared `file_size`; when the archive's total
declared size is zero every read is therefore empty and the division is
never executed, so the computation is well-defined at total size zero:
extraction completes without error, `extracted_percent` keeps its prior
value, the archive is deleted and readiness is signalled once. -/
theorem C4_zero_total_extraction (platDir : String → String) (rom : Rom)
    (chunks : List Nat) (entries : List ZipEntry) (st : Status) (fs : FS)
    (hq : st.download_queue = [rom]) (habd : st.abort_download = false)
    (hch : ∀ c ∈ chunks, c ≠ 0) (hm : rom.multi = true)
    (htot : (entries.map (fun e => e.file_size)).sum = 0) :
    (download_rom platDir (fun _ => .ok chunks entries)
        (fun _ => false) st fs).raised = false
    ∧ (download_rom platDir (fun _ => .ok chunks entries)
        (fun _ => false) st fs).st.extracted_percent = st.extracted_percent
    ∧ fsGet (download_rom platDir (fun _ => .ok chunks entries)
        (fun _ => false) st fs).fs (destOf platDir rom) = none
    ∧ (download_rom platDir (fun _ => .ok chunks entries)
        (fun _ => false) st fs).readySets = 1 := by
  have hsort : sortByName st.download_queue = [rom] := by rw [hq]; rfl
  have hz : ∀ e ∈ entries, e.file_size = 0 := by
    intro e he
    by_contra hne
    have hmem : e.file_size ∈ entries.map (fun e => e.file_size) :=
      List.mem_map_of_mem _ he
    have hle := List.single_le_sum (fun (x : Nat) _ => Nat.zero_le x) _ hmem
    rw [htot] at hle
    exact hne (Nat.le_zero.mp hle)
  have key := queueLoop_single_zero_archive platDir (fun _ => .ok chunks entries)
    (fun k => ({ st with download_queue := [rom] } : Status).abort_download || false)
    rom chunks entries rfl (by intro k; simp [habd]) hch hm
    hz 1 { st with download_queue := [rom] } fs 0 [] []
  refine ⟨?_, ?_, ?_, ?_⟩
  · show (queueLoop platDir (fun _ => .ok chunks entries)
        (fun k =>
          ({ st with download_queue := sortByName st.download_queue } : Status).abort_download
            || false)
        (sortByName st.download_queue) 1
        { st with download_queue := sortByName st.download_queue } fs 0 [] []).raised = false
    rw [hsort]
    exact key.1
  · show (queueLoop platDir (fun _ => .ok chunks entries)
        (fun k =>
          ({ st with download_queue := sortByName st.download_queue } : Status).abort_download
            || false)
        (sortByName st.download_queue) 1
        { st with download_queue := sortByName st.download_queue } fs 0 [] []).st.extracted_percent
      = st.extracted_percent
    rw [hsort]
    exact key.2.1
  · show fsGet (queueLoop platDir (fun _ => .ok chunks entries)
        (fun k =>
          ({ st with download_queue := sortByName st.download_queue } : Status).abort_download
            || false)
        (sortByName st.download_queue) 1
        { st with download_queue := sortByName st.download_queue } fs 0 [] []).fs
        (destOf platDir rom) = none
    rw [hsort]
    exact key.2.2.1
  · show (queueLoop platDir (fun _ => .ok chunks entries)
        (fun k =>
          ({ st with download_queue := sortByName st.download_queue } : Status).abort_download
            || false)
        (sortByName st.download_queue) 1
        { st with download_queue := sortByName st.download_queue } fs 0 [] []).readySets = 1
    rw [hsort]
    exact key.2.2.2

theorem C4_zero_total_extraction_witness :
    stM.download_queue = [romM] ∧ stM.abort_download = false
    ∧ (∀ c ∈ [4], c ≠ 0) ∧ romM.multi = true
    ∧ (([(⟨"e.bin", 0, [1024]⟩ : ZipEntry)].map (fun e => e.file_size)).sum = 0)
    ∧ ((download_rom (fun _ => "roms") (fun _ => .ok [4] [⟨"e.bin", 0, [1024]⟩])
          (fun _ => false) stM []).raised = false
      ∧ (download_rom (fun _ => "roms") (fun _ => .ok [4] [⟨"e.bin", 0, [1024]⟩])
          (fun _ => false) stM []).st.extracted_percent = stM.extracted_percent
      ∧ fsGet (download_rom (fun _ => "roms") (fun _ => .ok [4] [⟨"e.bin", 0, [1024]⟩])
          (fun _ => false) stM []).fs (destOf (fun _ => "roms") romM) = none
      ∧ (download_rom (fun _ => "roms") (fun _ => .ok [4] [⟨"e.bin", 0, [1024]⟩])
          (fun _ => false) stM []).readySets = 1) :=
  ⟨rfl, rfl, by decide, rfl, by decide,
    C4_zero_total_extraction (fun _ => "roms") romM [4] [⟨"e.bin", 0, [1024]⟩] stM []
      rfl rfl (by decide) rfl (by decide)⟩

/-- C5 counterexample: `download_rom` hitting a transport-level `URLError`
calls `_reset_download_status(valid_host=True)`, leaving
`valid_host = true` (and `valid_credentials = false`), not the claimed
`valid_host = false`. -/
theorem C5_counterexample :
    (download_rom (fun _ => "roms") (fun _ => .urlError)
        (fun _ => false) stA []).st.valid_host = true
    ∧ (download_rom (fun _ => "roms") (fun _ => .urlError)
        (fun _ => false) stA []).st.valid_credentials = false :=
  ⟨rfl, rfl⟩

/-- C5 (amended): for the catalog fetches, every transport-level failure
(malformed URL, non-HTTP(S) scheme, `URLError`) sets `valid_host = false`,
`valid_credentials = false` and resets the result list to empty; for
`download_rom`, a malformed URL or bad scheme does the same to the queue,
but a `URLError` during the transfer resets the queue with
`valid_host = true` and `valid_credentials = false`. -/
theorem C5_transport_failures :
    (∀ cfg icc ice st (o : FetchOutcome), o.isTransportFailure = true →
      (fetch_platforms cfg icc ice st o).st.valid_host = false
      ∧ (fetch_platforms cfg icc ice st o).st.valid_credentials = false
      ∧ (fetch_platforms cfg icc ice st o).st.platforms = [])
    ∧ (∀ cfg st (o : PairOutcome), o.isTransportFailure = true →
      (fetch_collections cfg st o).st.valid_host = false
      ∧ (fetch_collections cfg st o).st.valid_credentials = false
      ∧ (fetch_collections cfg st o).st.collections = [])
    ∧ (∀ cfg st (o : FetchOutcome) sel, selection st = some sel →
        o.isTransportFailure = true →
      (fetch_roms cfg st o).st.valid_host = false
      ∧ (fetch_roms cfg st o).st.valid_credentials = false
      ∧ (fetch_roms cfg st o).st.roms = [])
    ∧ (∀ platDir env ab (rom : Rom) rest i st fs k trace proc,
        env rom = RomEnv.badUrl →
      (queueLoop platDir env ab (rom :: rest) i st fs k trace proc).st.valid_host = false
      ∧ (queueLoop platDir env ab (rom :: rest) i st fs k trace proc).st.valid_credentials
          = false
      ∧ (queueLoop platDir env ab (rom :: rest) i st fs k trace proc).st.download_queue = [])
    ∧ (∀ platDir env ab (rom : Rom) rest i st fs k trace proc,
        env rom = RomEnv.badScheme →
      (queueLoop platDir env ab (rom :: rest) i st fs k trace proc).st.valid_host = false
      ∧ (queueLoop platDir env ab (rom :: rest) i st fs k trace proc).st.valid_credentials
          = false
      ∧ (queueLoop platDir env ab (rom :: rest) i st fs k trace proc).st.download_queue = [])
    ∧ (∀ platDir env ab (rom : Rom) rest i st fs k trace proc,
        env rom = RomEnv.urlError →
      (queueLoop platDir env ab (rom :: rest) i st fs k trace proc).st.valid_host = true
      ∧ (queueLoop platDir env ab (rom :: rest) i st fs k trace proc).st.valid_credentials
          = false
      ∧ (queueLoop platDir env ab (rom :: rest) i st fs k trace proc).st.download_queue
          = []) := by
  refine ⟨?_, ?_, ?_, ?_, ?_, ?_⟩
  · intro cfg icc ice st o ho
    cases o <;> simp_all [FetchOutcome.isTransportFailure, fetch_platforms]
  · intro cfg st o ho
    cases o <;> simp_all [PairOutcome.isTransportFailure, fetch_collections]
  · intro cfg st o sel hsel ho
    cases o <;> simp_all [FetchOutcome.isTransportFailure, fetch_roms]
  · intro platDir env ab rom rest i st fs k trace proc henv
    rw [queueLoop, henv]
    exact ⟨rfl, rfl, rfl⟩
  · intro platDir env ab rom rest i st fs k trace proc henv
    rw [queueLoop, henv]
    exact ⟨rfl, rfl, rfl⟩
  · intro platDir env ab rom rest i st fs k trace proc henv
    rw [queueLoop, henv]
    exact ⟨rfl, rfl, rfl⟩

theorem C5_transport_failures_witness :
    FetchOutcome.urlError.isTransportFailure = true
    ∧ ((fetch_platforms cfgA (fun _ => true) (fun _ => .ok)
          Status.startup .urlError).st.valid_host = false
      ∧ (fetch_platforms cfgA (fun _ => true) (fun _ => .ok)
          Status.startup .urlError).st.valid_credentials = false
      ∧ (fetch_platforms cfgA (fun _ => true) (fun _ => .ok)
          Status.startup .urlError).st.platforms = [])
    ∧ ((queueLoop (fun _ => "roms") (fun _ => RomEnv.urlError) (fun _ => false)
          [romA] 1 stA [] 0 [] []).st.valid_host = true
      ∧ (queueLoop (fun _ => "roms") (fun _ => RomEnv.urlError) (fun _ => false)
          [romA] 1 stA [] 0 [] []).st.valid_credentials = false
      ∧ (queueLoop (fun _ => "roms") (fun _ => RomEnv.urlError) (fun _ => false)
          [romA] 1 stA [] 0 [] []).st.download_queue = []) :=
  ⟨rfl,
    C5_transport_failures.1 cfgA (fun _ => true) (fun _ => .ok) Status.startup .urlError rfl,
    C5_transport_failures.2.2.2.2.2 (fun _ => "roms") (fun _ => RomEnv.urlError)
      (fun _ => false) romA [] 1 stA [] 0 [] [] rfl⟩

/-- The platform record used by the shape counterexample. -/
def pJson : Json :=
  .obj [("id", .num 1), ("display_name", .str "SNES"), ("slug", .str "snes"),
    ("rom_count", .num 2)]

/-- C7 counterexample: the same platform record delivered as a flat list is
fetched successfully, but delivered as an `items` envelope it makes
`fetch_platforms` raise (iterating the dict yields the key string, whose
subscripting fails): the two shapes do not produce the same result. -/
theorem C7_counterexample :
    (fetch_platforms cfgA (fun _ => true) (fun _ => .ok) Status.startup
        (.ok (Json.arr [pJson]))).raised = false
    ∧ (fetch_platforms cfgA (fun _ => true) (fun _ => .ok) Status.startup
        (.ok (Json.arr [pJson]))).st.platforms
      = [{ id := 1, display_name := "SNES", slug := "snes", rom_count := 2 }]
    ∧ (fetch_platforms cfgA (fun _ => true) (fun _ => .ok) Status.startup
        (.ok (Json.obj [("items", Json.arr [pJson])]))).raised = true
    ∧ (fetch_platforms cfgA (fun _ => true) (fun _ => .ok) Status.startup
        (.ok (Json.obj [("items", Json.arr [pJson])]))).readySets = 0 :=
  ⟨rfl, rfl, rfl, rfl⟩

/-- C7 (amended): `fetch_collections` and `fetch_roms` accept both the flat
list and the `items`-envelope shape and produce identical results for both;
`fetch_platforms` accepts only the flat list — on any non-empty JSON object
it raises, sets no readiness and leaves the status untouched. -/
theorem C7_envelope_normalization :
    (∀ cfg st (xs vys : List Json),
      fetch_collections cfg st (.ok (.arr xs) (.arr vys)) =
        fetch_collections cfg st
          (.ok (.obj [("items", .arr xs)]) (.obj [("items", .arr vys)])))
    ∧ (∀ cfg st (xs : List Json),
      fetch_roms cfg st (.ok (.arr xs)) =
        fetch_roms cfg st (.ok (.obj [("items", .arr xs)])))
    ∧ (∀ cfg icc ice st kv kvs,
      (fetch_platforms cfg icc ice st (.ok (.obj (kv :: kvs)))).raised = true
      ∧ (fetch_platforms cfg icc ice st (.ok (.obj (kv :: kvs)))).readySets = 0
      ∧ (fetch_platforms cfg icc ice st (.ok (.obj (kv :: kvs)))).st = st) := by
  refine ⟨?_, ?_, ?_⟩
  · intro cfg st xs vys
    rfl
  · intro cfg st xs
    unfold fetch_roms
    cases selection st
    · rfl
    · rfl
  · intro cfg icc ice st kv kvs
    exact ⟨rfl, rfl, rfl⟩

/-- C1 counterexample: `fetch_platforms` on an HTTP 403 returns without
setting `platforms_ready` — zero sets, not the claimed exactly one — so a
consumer waiting on the event blocks. -/
theorem C1_counterexample :
    (fetch_platforms cfgA (fun _ => true) (fun _ => .ok)
        Status.startup .http403).readySets = 0
    ∧ (fetch_platforms cfgA (fun _ => true) (fun _ => .ok)
        Status.startup .http403).st.platforms_ready = false :=
  ⟨rfl, rfl⟩

theorem savesBearerPhase_sets (st : Status) (ts : TokenState) (now : ℚ)
    (o₁ o₂ : TokenResult) (bearer : Attempt) :
    (savesBearerPhase st ts now o₁ o₂ bearer).2.2 = 1 := by
  unfold savesBearerPhase
  repeat' split
  all_goals rfl

theorem statesBearerPhase_sets (st : Status) (ts : TokenState) (now : ℚ)
    (o₁ o₂ : TokenResult) (bearer : Attempt) :
    (statesBearerPhase st ts now o₁ o₂ bearer).2.2 = 1 := by
  unfold statesBearerPhase
  repeat' split
  all_goals rfl

/-- C1 (amended): `fetch_saves` and `fetch_states` set their readiness event
exactly once on every outcome; the catalog fetches set theirs exactly once
on a fully successful invocation and not at all on an error return (bad
URL, bad scheme, HTTP 403, transport error), a propagated exception, or —
for `fetch_roms` — when no scope is selected. -/
theorem C1_readiness_signals :
    (∀ st ts now o₁ o₂ basic bearer,
      (fetch_saves st ts now o₁ o₂ basic bearer).2.2 = 1)
    ∧ (∀ st ts now o₁ o₂ basic bearer,
      (fetch_states st ts now o₁ o₂ basic bearer).2.2 = 1)
    ∧ (∀ cfg icc ice st (o : FetchOutcome),
      (fetch_platforms cfg icc ice st o).readySets =
        if (fetch_platforms cfg icc ice st o).raised then 0
        else if o.isErrReturn then 0 else 1)
    ∧ (∀ cfg st (o : PairOutcome),
      (fetch_collections cfg st o).readySets =
        if (fetch_collections cfg st o).raised then 0
        else if o.isErrReturn then 0 else 1)
    ∧ (∀ cfg st (o : FetchOutcome),
      (fetch_roms cfg st o).readySets =
        if selection st = none then 0
        else if (fetch_roms cfg st o).raised then 0
        else if o.isErrReturn then 0 else 1) := by
  refine ⟨?_, ?_, ?_, ?_, ?_⟩
  · intro st ts now o₁ o₂ basic bearer
    unfold fetch_saves
    repeat' split
    all_goals first | rfl | exact savesBearerPhase_sets .. | simp_all
  · intro st ts now o₁ o₂ basic bearer
    unfold fetch_states
    repeat' split
    all_goals first | rfl | exact statesBearerPhase_sets .. | simp_all
  · intro cfg icc ice st o
    unfold fetch_platforms
    repeat' split
    all_goals first
      | rfl
      | simp_all [FetchOutcome.isErrReturn, PairOutcome.isErrReturn]
  · intro cfg st o
    unfold fetch_collections
    repeat' split
    all_goals first
      | rfl
      | simp_all [FetchOutcome.isErrReturn, PairOutcome.isErrReturn]
  · intro cfg st o
    unfold fetch_roms
    repeat' split
    all_goals first
      | rfl
      | simp_all [FetchOutcome.isErrReturn, PairOutcome.isErrReturn]

/-- A status carrying a previously fetched saves list. -/
def stS : Status := { Status.startup with saves := [svA], saves_ready := false }

/-- A status carrying a previously fetched states list. -/
def stT : Status := { Status.startup with states := [svA], states_ready := false }

/-- C8 counterexample: with a non-empty saves list already in status, a
basic-auth failure followed by a failed bearer-token acquisition completes
with the saves list left unchanged — still non-empty, not reset to empty —
though the readiness signal is raised. -/
theorem C8_counterexample :
    (fetch_saves stS {} 0 .exc .exc .exc .exc).1.saves = [svA]
    ∧ ([svA] : List SaveRec) ≠ []
    ∧ (fetch_saves stS {} 0 .exc .exc .exc .exc).1.saves_ready = true
    ∧ (fetch_saves stS {} 0 .exc .exc .exc .exc).2.2 = 1 :=
  ⟨rfl, by simp, rfl, rfl⟩

theorem savesBearerPhase_fail (st : Status) (ts : TokenState) (now : ℚ)
    (o₁ o₂ : TokenResult) (bearer : Attempt)
    (hfail : (ensure_valid_token ts now o₁ o₂).1 = false ∨ bearer.isErr = true) :
    (savesBearerPhase st ts now o₁ o₂ bearer).1.saves = st.saves
    ∧ (savesBearerPhase st ts now o₁ o₂ bearer).1.saves_ready = true := by
  unfold savesBearerPhase
  split
  next okTok ts' snd heq =>
    split
    next hok => exact ⟨rfl, rfl⟩
    next hok =>
      rcases hfail with hf | hf
      · exfalso
        rw [heq] at hf
        simp at hf
        simp [hf] at hok
      · cases bearer with
        | ok body => simp [Attempt.isErr] at hf
        | httpErr c => exact ⟨rfl, rfl⟩
        | urlErr => exact ⟨rfl, rfl⟩
        | exc => exact ⟨rfl, rfl⟩

theorem statesBearerPhase_fail (st : Status) (ts : TokenState) (now : ℚ)
    (o₁ o₂ : TokenResult) (bearer : Attempt)
    (hfail : (ensure_valid_token ts now o₁ o₂).1 = false ∨ bearer.isErr = true) :
    (statesBearerPhase st ts now o₁ o₂ bearer).1.states = st.states
    ∧ (statesBearerPhase st ts now o₁ o₂ bearer).1.states_ready = true := by
  unfold statesBearerPhase
  split
  next okTok ts' snd heq =>
    split
    next hok => exact ⟨rfl, rfl⟩
    next hok =>
      rcases hfail with hf | hf
      · exfalso
        rw [heq] at hf
        simp at hf
        simp [hf] at hok
      · cases bearer with
        | ok body => simp [Attempt.isErr] at hf
        | httpErr c => exact ⟨rfl, rfl⟩
        | urlErr => exact ⟨rfl, rfl⟩
        | exc => exact ⟨rfl, rfl⟩

/-- C8 (amended): when the basic attempt fails and the bearer path also
fails (token acquisition fails, or the bearer request errors), `fetch_saves`
and `fetch_states` complete with the result list left unchanged from before
the call — not reset to empty — and their readiness signal is still raised
exactly once. -/
theorem C8_auth_exhaustion (st : Status) (ts : TokenState) (now : ℚ)
    (o₁ o₂ : TokenResult) (basic bearer : Attempt)
    (hb : basic.isErr = true)
    (hfail : (ensure_valid_token ts now o₁ o₂).1 = false ∨ bearer.isErr = true) :
    (fetch_saves st ts now o₁ o₂ basic bearer).1.saves = st.saves
    ∧ (fetch_saves st ts now o₁ o₂ basic bearer).1.saves_ready = true
    ∧ (fetch_saves st ts now o₁ o₂ basic bearer).2.2 = 1
    ∧ (fetch_states st ts now o₁ o₂ basic bearer).1.states = st.states
    ∧ (fetch_states st ts now o₁ o₂ basic bearer).1.states_ready = true
    ∧ (fetch_states st ts now o₁ o₂ basic bearer).2.2 = 1 := by
  cases basic with
  | ok body => simp [Attempt.isErr] at hb
  | httpErr c =>
    exact ⟨(savesBearerPhase_fail st ts now o₁ o₂ bearer hfail).1,
      (savesBearerPhase_fail st ts now o₁ o₂ bearer hfail).2,
      savesBearerPhase_sets st ts now o₁ o₂ bearer,
      (statesBearerPhase_fail st ts now o₁ o₂ bearer hfail).1,
      (statesBearerPhase_fail st ts now o₁ o₂ bearer hfail).2,
      statesBearerPhase_sets st ts now o₁ o₂ bearer⟩
  | urlErr =>
    exact ⟨(savesBearerPhase_fail st ts now o₁ o₂ bearer hfail).1,
      (savesBearerPhase_fail st ts now o₁ o₂ bearer hfail).2,
      savesBearerPhase_sets st ts now o₁ o₂ bearer,
      (statesBearerPhase_fail st ts now o₁ o₂ bearer hfail).1,
      (statesBearerPhase_fail st ts now o₁ o₂ bearer hfail).2,
      statesBearerPhase_sets st ts now o₁ o₂ bearer⟩
  | exc =>
    exact ⟨(savesBearerPhase_fail st ts now o₁ o₂ bearer hfail).1,
      (savesBearerPhase_fail st ts now o₁ o₂ bearer hfail).2,
      savesBearerPhase_sets st ts now o₁ o₂ bearer,
      (statesBearerPhase_fail st ts now o₁ o₂ bearer hfail).1,
      (statesBearerPhase_fail st ts now o₁ o₂ bearer hfail).2,
      statesBearerPhase_sets st ts now o₁ o₂ bearer⟩

theorem C8_auth_exhaustion_witness :
    Attempt.exc.isErr = true
    ∧ ((ensure_valid_token {} 0 .exc .exc).1 = false ∨ Attempt.exc.isErr = true)
    ∧ ((fetch_saves stS {} 0 .exc .exc .exc .exc).1.saves = stS.saves
      ∧ (fetch_saves stS {} 0 .exc .exc .exc .exc).1.saves_ready = true
      ∧ (fetch_saves stS {} 0 .exc .exc .exc .exc).2.2 = 1
      ∧ (fetch_states stS {} 0 .exc .exc .exc .exc).1.states = stS.states
      ∧ (fetch_states stS {} 0 .exc .exc .exc .exc).1.states_ready = true
      ∧ (fetch_states stS {} 0 .exc .exc .exc .exc).2.2 = 1) :=
  ⟨rfl, Or.inl rfl,
    C8_auth_exhaustion stS {} 0 .exc .exc .exc .exc rfl (Or.inl rfl)⟩

theorem get_access_token_trace (ts : TokenState) (now : ℚ) (o : TokenResult) :
    (get_access_token ts now o).2.2 = [Grant.password] := by
  unfold get_access_token
  repeat' split
  all_goals rfl

/-- C9: a token acquisition reporting `expires_in = E` caches an expiry `E`
seconds after the current time; an ensure-valid-token call at or after that
instant performs exactly one refresh-token-grant attempt when the refresh
response carries a token, falls back to exactly one password grant after
the refresh attempt when the refresh POST errors, and makes no network call
while the cached token is unexpired. -/
theorem C9_token_lifecycle :
    (∀ (ts : TokenState) (t0 : ℚ) (r : TokenResp) a rt E,
      r.access_token = some a → r.refresh_token = some rt → r.expires_in = some E →
      get_access_token ts t0 (.ok r) =
        (true, ⟨some a, some rt, some (t0 + E)⟩, [.password]))
    ∧ (∀ a rt (e now : ℚ) (o₂ : TokenResult) (r' : TokenResp) a',
      e ≠ 0 → now ≥ e → r'.access_token = some a' →
      (ensure_valid_token ⟨some a, some rt, some e⟩ now (.ok r') o₂).2.2 =
        [.refreshGrant])
    ∧ (∀ a rt (e now : ℚ) (o₁ o₂ : TokenResult),
      e ≠ 0 → now ≥ e → o₁.isErr = true →
      (ensure_valid_token ⟨some a, some rt, some e⟩ now o₁ o₂).2.2 =
        [.refreshGrant, .password])
    ∧ (∀ a rt (e now : ℚ) (o₁ o₂ : TokenResult),
      now < e →
      ensure_valid_token ⟨some a, some rt, some e⟩ now o₁ o₂ =
        (true, ⟨some a, some rt, some e⟩, [])) := by
  refine ⟨?_, ?_, ?_, ?_⟩
  · intro ts t0 r a rt E h1 h2 h3
    unfold get_access_token
    simp [h1, h2, h3]
  · intro a rt e now o₂ r' a' he hnow hra
    unfold ensure_valid_token
    dsimp only
    rw [if_pos ⟨he, hnow⟩]
    unfold refresh_access_token
    simp [hra]
  · intro a rt e now o₁ o₂ he hnow ho
    unfold ensure_valid_token
    dsimp only
    rw [if_pos ⟨he, hnow⟩]
    unfold refresh_access_token
    cases o₁ with
    | ok r => simp [TokenResult.isErr] at ho
    | httpErr c => simp [get_access_token_trace]
    | urlErr => simp [get_access_token_trace]
    | exc => simp [get_access_token_trace]
  · intro a rt e now o₁ o₂ hlt
    unfold ensure_valid_token
    dsimp only
    rw [if_neg]
    rintro ⟨-, h2⟩
    exact absurd h2 (not_le.mpr hlt)

theorem C9_token_lifecycle_witness :
    ((⟨some "a", some "r", some 1800⟩ : TokenResp).access_token = some "a"
      ∧ (⟨some "a", some "r", some 1800⟩ : TokenResp).refresh_token = some "r"
      ∧ (⟨some "a", some "r", some 1800⟩ : TokenResp).expires_in = some 1800)
    ∧ get_access_token {} 100 (.ok ⟨some "a", some "r", some 1800⟩) =
        (true, ⟨some "a", some "r", some ((100 : ℚ) + 1800)⟩, [.password])
    ∧ (ensure_valid_token ⟨some "a", some "r", some 1900⟩ 1901
        (.ok ⟨some "b", some "r2", some 1800⟩) .exc).2.2 = [.refreshGrant]
    ∧ (ensure_valid_token ⟨some "a", some "r", some 1900⟩ 1901 .urlErr .exc).2.2 =
        [.refreshGrant, .password]
    ∧ ensure_valid_token ⟨some "a", some "r", some 1900⟩ 1000 .urlErr .exc =
        (true, ⟨some "a", some "r", some 1900⟩, []) :=
  ⟨⟨rfl, rfl, rfl⟩,
    C9_token_lifecycle.1 {} 100 ⟨some "a", some "r", some 1800⟩ "a" "r" 1800 rfl rfl rfl,
    C9_token_lifecycle.2.1 "a" "r" 1900 1901 .exc ⟨some "b", some "r2", some 1800⟩ "b"
      (by decide) (by decide) rfl,
    C9_token_lifecycle.2.2.1 "a" "r" 1900 1901 .urlErr .exc (by decide) (by decide) rfl,
    C9_token_lifecycle.2.2.2 "a" "r" 1900 1000 .urlErr .exc (by decide)⟩

/-! ## C6: the connectivity-flag invariant over all reachable states -/

/-- The status carried by a download-phase loop outcome. -/
def DLStep.stOf : DLStep → Status
  | .finished st _ _ _ => st
  | .abortedD st _ _ _ => st

/-- The status carried by an extraction loop outcome. -/
def ExStep.stOf : ExStep → Status
  | .exDone st _ _ => st
  | .exAborted st _ _ => st
  | .exRaised st _ _ => st

theorem flagsOK_reset (st : Status) (b : Bool) :
    flagsOK (reset_download_status st true b) := by
  intro hv
  simp [reset_download_status] at hv

theorem flagsOK_reset_ff (st : Status) :
    flagsOK (reset_download_status st false false) := by
  intro hv
  rfl

theorem fetchPlatformIcon_flagsOK (st st' : Status) (o : IconOutcome)
    (heq : fetchPlatformIcon st o = some st') : flagsOK st' := by
  cases o <;> simp [fetchPlatformIcon] at heq <;> rw [← heq] <;> intro hv <;>
    first | rfl | simp at hv

theorem platformsLoop_flagsOK (cfg : Config) (icc : String → Bool)
    (ice : String → IconOutcome) :
    ∀ (items : List Json) st acc, flagsOK st →
      flagsOK (platformsLoop cfg icc ice items st acc).1 := by
  intro items
  induction items with
  | nil => intro st acc h; exact h
  | cons j js ih =>
    intro st acc h
    rw [platformsLoop]
    repeat' (first | split | dsimp only)
    all_goals try exact h
    all_goals try exact ih _ _ h
    all_goals exact ih _ _ (fetchPlatformIcon_flagsOK st _ _ (by assumption))

theorem fetch_platforms_flagsOK (cfg : Config) (icc : String → Bool)
    (ice : String → IconOutcome) (st : Status) (o : FetchOutcome) (h : flagsOK st) :
    flagsOK (fetch_platforms cfg icc ice st o).st := by
  unfold fetch_platforms
  repeat' split
  all_goals try exact h
  all_goals try (intro hv; rfl)
  all_goals try (intro hv; simp at hv)
  all_goals
    rename_i items hit x st' heq
    try intro hv
    have hl := platformsLoop_flagsOK cfg icc ice items st [] h
    rw [heq] at hl
    exact hl hv

theorem fetch_collections_flagsOK (cfg : Config) (st : Status) (o : PairOutcome)
    (h : flagsOK st) : flagsOK (fetch_collections cfg st o).st := by
  unfold fetch_collections
  repeat' split
  all_goals try exact h
  all_goals try (intro hv; rfl)
  all_goals intro hv; simp at hv

theorem fetch_roms_flagsOK (cfg : Config) (st : Status) (o : FetchOutcome)
    (h : flagsOK st) : flagsOK (fetch_roms cfg st o).st := by
  unfold fetch_roms
  repeat' split
  all_goals try exact h
  all_goals try (intro hv; rfl)
  all_goals intro hv; simp at hv

theorem fetch_saves_flags (st : Status) (ts : TokenState) (now : ℚ)
    (o₁ o₂ : TokenResult) (basic bearer : Attempt) :
    (fetch_saves st ts now o₁ o₂ basic bearer).1.valid_host = st.valid_host
    ∧ (fetch_saves st ts now o₁ o₂ basic bearer).1.valid_credentials
        = st.valid_credentials := by
  unfold fetch_saves savesBearerPhase
  repeat' split
  all_goals exact ⟨rfl, rfl⟩

theorem fetch_states_flags (st : Status) (ts : TokenState) (now : ℚ)
    (o₁ o₂ : TokenResult) (basic bearer : Attempt) :
    (fetch_states st ts now o₁ o₂ basic bearer).1.valid_host = st.valid_host
    ∧ (fetch_states st ts now o₁ o₂ basic bearer).1.valid_credentials
        = st.valid_credentials := by
  unfold fetch_states statesBearerPhase
  repeat' split
  all_goals exact ⟨rfl, rfl⟩

theorem dlLoop_flagsOK (ab : Nat → Bool) (rom : Rom) (dest : String) :
    ∀ (chunks : List Nat) st fs k trace, flagsOK st →
      flagsOK (dlLoop ab rom dest chunks st fs k trace).stOf := by
  intro chunks
  induction chunks with
  | nil =>
    intro st fs k trace h
    rw [dlLoop]
    split
    · exact flagsOK_reset _ _
    · exact h
  | cons c rest ih =>
    intro st fs k trace h
    rw [dlLoop]
    split
    · exact flagsOK_reset _ _
    · split
      · exact h
      · refine ih _ _ _ _ ?_
        intro hv
        simp at hv

theorem exChunks_flags (total : Nat) (fpath : String) :
    ∀ (cs : List Nat) left st fs ex,
      (exChunks total fpath cs left st fs ex).1.valid_host = st.valid_host
      ∧ (exChunks total fpath cs left st fs ex).1.valid_credentials
          = st.valid_credentials := by
  intro cs
  induction cs with
  | nil => intro left st fs ex; exact ⟨rfl, rfl⟩
  | cons c rest ih =>
    intro left st fs ex
    rw [exChunks]
    split
    · exact ⟨rfl, rfl⟩
    · dsimp only
      split
      · exact ⟨rfl, rfl⟩
      · exact ih _ _ _ _

theorem exLoop_flagsOK (ab : Nat → Bool) (destDir dest : String) (total : Nat) :
    ∀ (entries : List ZipEntry) st fs k ex, flagsOK st →
      flagsOK (exLoop ab destDir dest total entries st fs k ex).stOf := by
  intro entries
  induction entries with
  | nil => intro st fs k ex h; rw [exLoop]; exact h
  | cons e rest ih =>
    intro st fs k ex h
    rw [exLoop]
    split
    · exact flagsOK_reset _ _
    · dsimp only
      rcases hec : exChunks total (osJoinS destDir (sanitizeS e.filename)) e.chunksE
          e.file_size st
          (fsSet fs (osJoinS destDir (sanitizeS e.filename)) 0) ex with ⟨st1, fs1, ex1, rb⟩
      have hfl := exChunks_flags total (osJoinS destDir (sanitizeS e.filename))
        e.chunksE e.file_size st (fsSet fs (osJoinS destDir (sanitizeS e.filename)) 0) ex
      rw [hec] at hfl
      have h1 : flagsOK st1 := by
        intro hv
        rw [hfl.1] at hv
        rw [hfl.2]
        exact h hv
      cases rb
      · exact ih _ _ _ _ h1
      · exact h1

theorem queueLoop_flagsOK (platDir : String → String) (env : Rom → RomEnv)
    (ab : Nat → Bool) :
    ∀ (queue : List Rom) i st fs k trace proc, flagsOK st →
      flagsOK (queueLoop platDir env ab queue i st fs k trace proc).st := by
  intro queue
  induction queue with
  | nil => intro i st fs k trace proc h; rw [queueLoop]; exact flagsOK_reset _ _
  | cons r rest ih =>
    intro i st fs k trace proc h
    rw [queueLoop]
    have h0 : flagsOK ({ st with
        downloading_rom := some r, downloading_rom_position := i } : Status) := h
    rcases henv : env r with _ | _ | _ | _ | _ | ⟨chunks, entries⟩ <;> dsimp only
    · exact flagsOK_reset_ff _
    · exact flagsOK_reset_ff _
    · exact flagsOK_reset _ _
    · exact h0
    · exact flagsOK_reset _ _
    · have hdl := dlLoop_flagsOK ab r (destOf platDir r) chunks
        { st with
            downloading_rom := some r, downloading_rom_position := i,
            total_downloaded_bytes := 0 }
        (fsSet fs (destOf platDir r) 0) k trace h0
      rcases hd : dlLoop ab r (destOf platDir r) chunks
          { st with
              downloading_rom := some r, downloading_rom_position := i,
              total_downloaded_bytes := 0 }
          (fsSet fs (destOf platDir r) 0) k trace with
        ⟨st1, fs1, k1, tr1⟩ | ⟨st1, fs1, k1, tr1⟩ <;> rw [hd] at hdl <;> dsimp only
      case abortedD => exact hdl
      case finished =>
        have h1 : flagsOK st1 := hdl
        split
        · have hex := exLoop_flagsOK ab (dirnameS (destOf platDir r)) (destOf platDir r)
            ((entries.map (fun e => e.file_size)).sum) entries
            { st1 with extracting_rom := true } fs1 k1 0 h1
          rcases he : exLoop ab (dirnameS (destOf platDir r)) (destOf platDir r)
              ((entries.map (fun e => e.file_size)).sum) entries
              { st1 with extracting_rom := true } fs1 k1 0 with
            ⟨st2, fs2, k2⟩ | ⟨st2, fs2, k2⟩ | ⟨st2, fs2, k2⟩ <;> rw [he] at hex <;>
            (try rw [he]) <;> (try dsimp only)
          case exDone => exact ih _ _ _ _ _ _ hex
          case exAborted => exact hex
          case exRaised => exact hex
        · exact ih _ _ _ _ _ _ h1

theorem download_rom_flagsOK (platDir : String → String) (env : Rom → RomEnv)
    (abortIn : Nat → Bool) (st : Status) (fs : FS) (h : flagsOK st) :
    flagsOK (download_rom platDir env abortIn st fs).st :=
  queueLoop_flagsOK platDir env _ _ 1 _ fs 0 [] [] h

/-- One background operation invocation, as a relation between the status
before and after (the network environment, token state and clock are
arbitrary). -/
inductive OpStep : Status → Status → Prop where
  | platforms (cfg icc ice o) {st : Status} :
      OpStep st (fetch_platforms cfg icc ice st o).st
  | collections (cfg o) {st : Status} : OpStep st (fetch_collections cfg st o).st
  | roms (cfg o) {st : Status} : OpStep st (fetch_roms cfg st o).st
  | saves (ts now o₁ o₂ basic bearer) {st : Status} :
      OpStep st (fetch_saves st ts now o₁ o₂ basic bearer).1
  | states (ts now o₁ o₂ basic bearer) {st : Status} :
      OpStep st (fetch_states st ts now o₁ o₂ basic bearer).1
  | download (platDir env abortIn fs) {st : Status} :
      OpStep st (download_rom platDir env abortIn st fs).st

/-- The statuses reachable from startup by any sequence of fetch/download
operations. -/
inductive Reachable : Status → Prop where
  | start : Reachable Status.startup
  | step {st st' : Status} : Reachable st → OpStep st st' → Reachable st'

theorem opStep_flagsOK {st st' : Status} (h : flagsOK st) (hs : OpStep st st') :
    flagsOK st' := by
  cases hs with
  | platforms cfg icc ice o => exact fetch_platforms_flagsOK cfg icc ice _ o h
  | collections cfg o => exact fetch_collections_flagsOK cfg _ o h
  | roms cfg o => exact fetch_roms_flagsOK cfg _ o h
  | saves ts now o₁ o₂ basic bearer =>
    have hfl := fetch_saves_flags st ts now o₁ o₂ basic bearer
    intro hv
    rw [hfl.1] at hv
    rw [hfl.2]
    exact h hv
  | states ts now o₁ o₂ basic bearer =>
    have hfl := fetch_states_flags st ts now o₁ o₂ basic bearer
    intro hv
    rw [hfl.1] at hv
    rw [hfl.2]
    exact h hv
  | download platDir env abortIn fs => exact download_rom_flagsOK platDir env abortIn _ fs h

/-- C6: in every reachable status — after initialization and after any
sequence of fetch/download operations — `valid_host = false` never coexists
with `valid_credentials = true`. -/
theorem C6_flags_invariant (st : Status) (h : Reachable st) :
    ¬(st.valid_host = false ∧ st.valid_credentials = true) := by
  have hOK : flagsOK st := by
    induction h with
    | start => intro hv0; simp [Status.startup] at hv0
    | step hr hs ih => exact opStep_flagsOK ih hs
  rintro ⟨hv, hc⟩
  rw [hOK hv] at hc
  exact Bool.false_ne_true hc

theorem C6_flags_invariant_witness :
    Reachable (fetch_platforms cfgA (fun _ => true) (fun _ => .ok)
        Status.startup .urlError).st
    ∧ ¬((fetch_platforms cfgA (fun _ => true) (fun _ => .ok)
          Status.startup .urlError).st.valid_host = false
        ∧ (fetch_platforms cfgA (fun _ => true) (fun _ => .ok)
            Status.startup .urlError).st.valid_credentials = true) :=
  ⟨Reachable.step Reachable.start (OpStep.platforms cfgA (fun _ => true) (fun _ => .ok)
      .urlError),
    C6_flags_invariant _
      (Reachable.step Reachable.start (OpStep.platforms cfgA (fun _ => true)
        (fun _ => .ok) .urlError))⟩

/-- C10: `_sanitize_filename` replaces every character of the hostile set
(backslash, slash, star, question mark, colon, quote, angle brackets, pipe,
tab, newline, carriage return, backspace) within each path segment with an
underscore and preserves the segment structure, but leaves `..` segments
intact: the input `../x` sanitizes to itself, so its result still begins
with `..` and a destination joined under the title's directory can resolve
outside that directory. (Stated for relative paths, i.e. inputs whose
normalization does not start with a separator.) -/
theorem C10_sanitizer_dotdot (f : List Char)
    (h : (normpath f).take 1 ≠ ['/']) :
    splitSep (sanitize_filename f) =
      (splitSep (normpath f)).map
        (fun p => p.map (fun c => if c ∈ HOSTILE then '_' else c))
    ∧ sanitizePart ['.', '.'] = ['.', '.']
    ∧ sanitize_filename ['.', '.', '/', 'x'] = ['.', '.', '/', 'x']
    ∧ (sanitize_filename ['.', '.', '/', 'x']).take 2 = ['.', '.'] :=
  ⟨sanitize_filename_parts f h, by decide, by decide, by decide⟩

theorem C10_sanitizer_dotdot_witness :
    (normpath ['.', '.', '/', 'x']).take 1 ≠ ['/']
    ∧ (splitSep (sanitize_filename ['.', '.', '/', 'x']) =
        (splitSep (normpath ['.', '.', '/', 'x'])).map
          (fun p => p.map (fun c => if c ∈ HOSTILE then '_' else c))
      ∧ sanitizePart ['.', '.'] = ['.', '.']
      ∧ sanitize_filename ['.', '.', '/', 'x'] = ['.', '.', '/', 'x']
      ∧ (sanitize_filename ['.', '.', '/', 'x']).take 2 = ['.', '.']) :=
  ⟨by decide, C10_sanitizer_dotdot ['.', '.', '/', 'x'] (by decide)⟩

end RomM
